import Mathlib

/-!
# Verification of the osxphotos export engine (`_photoinfo_export.py`)

Shallow embedding of the export engine of the repository: the functions
`export`, `export2`, `_export_photo`, `_exiftool_json_sidecar`,
`_write_exif_data`, `_write_sidecar` from
`src/osxphotos/photoinfo/_photoinfo_export.py`, together with models of the
collaborators they use that are not part of the source tree
(`ExportDB`, `file_sig`/`cmp_file`, `_copy_file`/`_hardlink_file`,
the Python `json`, `glob`/`fnmatch` and `pathlib` libraries).

Modelling conventions:
* Paths are pairs of a parent-directory string and a slash-free file name
  (`Pth`); the engine only ever composes destination paths this way.
  Directory names are treated literally (glob metacharacters inside the
  *directory* part of a pattern are out of scope; the file-name part of
  patterns is matched by a faithful `fnmatch` model including `*`, `?`
  and `[...]` classes and the hidden-file rule).
* The filesystem is a map from paths to inode numbers plus a map from
  inode numbers to file data (bytes, mtime), so hardlink aliasing and
  `os.path.samefile` are modelled exactly.  Directory listings enumerate
  entries in creation order (real systems leave the order unspecified);
  subdirectory entries are not modelled (listings contain files only).
* Machine integers do not occur; sizes, times and inode numbers are `Nat`.
* Python exceptions are an explicit error type; `export2` returns the
  error together with the state at the point of raising.
-/

namespace OsxPhotos

set_option maxRecDepth 100000

deriving instance DecidableEq for Except

/-- A filesystem path: parent directory (an arbitrary string, treated
literally) and a file name (assumed slash-free). -/
structure Pth where
  par : String
  nm : String
deriving DecidableEq, Repr

/-- Association list lookup (first match). -/
def alGet {κ α : Type} [DecidableEq κ] : List (κ × α) → κ → Option α
  | [], _ => none
  | (k, a) :: t, k' => if k = k' then some a else alGet t k'

/-- Association list update: replace the value in place, or append. -/
def alSet {κ α : Type} [DecidableEq κ] : List (κ × α) → κ → α → List (κ × α)
  | [], k, a => [(k, a)]
  | (k0, a0) :: t, k, a => if k0 = k then (k0, a) :: t else (k0, a0) :: alSet t k a

/-- Association list removal (all occurrences of the key). -/
def alErase {κ α : Type} [DecidableEq κ] : List (κ × α) → κ → List (κ × α)
  | [], _ => []
  | (k0, a0) :: t, k => if k0 = k then alErase t k else (k0, a0) :: alErase t k

/-- File-identity signature, `file_sig` from `_filecmp`.
Modelled from the spec: `_filecmp` is not in the source tree; §4.1 defines
the signature as the triple (size, mtime, name), equal iff all three
fields match exactly. -/
structure Sig where
  sz : Nat
  mt : Nat
  nm : String
deriving DecidableEq, Repr

/-- Contents of one inode: bytes and modification time. -/
structure FData where
  bytes : List Nat
  mtime : Nat
deriving DecidableEq, Repr

/-- The filesystem: name table (path → inode), inode table, directories. -/
structure FS where
  names : List (Pth × Nat)
  datas : List (Nat × FData)
  dirs : List String
deriving DecidableEq, Repr

/-- The export ledger (`ExportDB`).
Modelled from the spec: `_export_db` is not in the source tree; §4.2 gives
the capability set (uuid/info/orig-signature/exif-signature/exif-payload
maps keyed by destination path or uuid).  In `sExif`, a stored value
`none` is the `(None, None, None)` triple the engine writes to reset the
post-exif signature; in `exifData` resetting with `None` removes the
entry (both a missing row and a reset row read back as absent). -/
structure Ledger where
  uuidFor : List (Pth × String)
  infoFor : List (String × String)
  sOrig : List (Pth × Sig)
  sExif : List (Pth × Option Sig)
  exifData : List (Pth × String)
deriving DecidableEq, Repr

/-- The mutable world the engine acts on: filesystem, ledger, a counter
for fresh inode numbers and a clock supplying mtimes for file writes. -/
structure St where
  fs : FS
  led : Ledger
  nextIno : Nat
  clock : Nat
deriving DecidableEq, Repr

def FS.ino (fs : FS) (p : Pth) : Option Nat := alGet fs.names p

def FS.fdata (fs : FS) (i : Nat) : Option FData := alGet fs.datas i

def FS.pexists (fs : FS) (p : Pth) : Bool := (fs.ino p).isSome

def FS.isdir (fs : FS) (d : String) : Bool := fs.dirs.contains d

def St.dataAt (s : St) (p : Pth) : Option FData :=
  match s.fs.ino p with
  | some i => s.fs.fdata i
  | none => none

/-- `os.path.samefile` (both paths assumed to exist at call sites). -/
def St.samefile (s : St) (p q : Pth) : Bool :=
  match s.fs.ino p, s.fs.ino q with
  | some i, some j => i = j
  | _, _ => false

/-- `filecmp.cmp(src, dest)` with the default `shallow=True`.
Modelled from the spec: stdlib `filecmp`; equal if the (size, mtime)
stat signatures agree, otherwise by byte-for-byte comparison. -/
def St.pycmp (s : St) (p q : Pth) : Bool :=
  match s.dataAt p, s.dataAt q with
  | some a, some b =>
      (a.bytes.length = b.bytes.length ∧ a.mtime = b.mtime) ∨ a.bytes = b.bytes
  | _, _ => false

/-- `file_sig(path)` for an existing file. -/
def St.fileSigO (s : St) (p : Pth) : Option Sig :=
  match s.dataAt p with
  | some d => some ⟨d.bytes.length, d.mtime, p.nm⟩
  | none => none

/-- `file_sig(path)`, defaulted (call sites only use it on existing files). -/
def St.fileSigD (s : St) (p : Pth) : Sig := (s.fileSigO p).getD ⟨0, 0, ""⟩

/-- `cmp_file(path, stored_signature)` from `_filecmp`.
Modelled from the spec: compares the current signature of `path` with a
stored triple; a missing row or a reset `(None, None, None)` row never
matches. -/
def St.cmpFileSig (s : St) (p : Pth) (stored : Option (Option Sig)) : Bool :=
  match s.fileSigO p, stored with
  | some g, some (some g') => g = g'
  | _, _ => false

/-- Directory listing used by `glob`: names of files whose parent is
`dir`, in creation order. -/
def FS.entriesIn (fs : FS) (dir : String) : List String :=
  (fs.names.filter (fun e => e.1.par = dir)).map (fun e => e.1.nm)

-- Ledger operations.  `dbOn = false` is the `ExportDBNoOp` variant
-- (every getter absent, every setter discarded).

def St.getUuid (s : St) (dbOn : Bool) (p : Pth) : Option String :=
  if dbOn then alGet s.led.uuidFor p else none

def St.setUuid (s : St) (dbOn : Bool) (p : Pth) (u : String) : St :=
  if dbOn then { s with led := { s.led with uuidFor := alSet s.led.uuidFor p u } } else s

def St.getInfo (s : St) (dbOn : Bool) (u : String) : Option String :=
  if dbOn then alGet s.led.infoFor u else none

def St.setInfo (s : St) (dbOn : Bool) (u : String) (j : String) : St :=
  if dbOn then { s with led := { s.led with infoFor := alSet s.led.infoFor u j } } else s

def St.setSOrig (s : St) (dbOn : Bool) (p : Pth) (g : Sig) : St :=
  if dbOn then { s with led := { s.led with sOrig := alSet s.led.sOrig p g } } else s

def St.getSExif (s : St) (dbOn : Bool) (p : Pth) : Option (Option Sig) :=
  if dbOn then alGet s.led.sExif p else none

def St.setSExif (s : St) (dbOn : Bool) (p : Pth) (g : Option Sig) : St :=
  if dbOn then { s with led := { s.led with sExif := alSet s.led.sExif p g } } else s

def St.getExifData (s : St) (dbOn : Bool) (p : Pth) : Option String :=
  if dbOn then alGet s.led.exifData p else none

def St.setExifData (s : St) (dbOn : Bool) (p : Pth) (j : Option String) : St :=
  if dbOn then
    match j with
    | some j' => { s with led := { s.led with exifData := alSet s.led.exifData p j' } }
    | none => { s with led := { s.led with exifData := alErase s.led.exifData p } }
  else s

/-- Python exceptions raised by the engine, distinguished by type and by
raise site where a claim depends on it. -/
inductive EErr where
  /-- `ValueError` (edited requested without adjustments, or `dest is None`). -/
  | valueErr : String → EErr
  /-- The "Too many positional arguments" `TypeError` (`export2` line 208). -/
  | tooManyArgs : EErr
  /-- The `TypeError` from `pathlib.Path(None)` on a missing RAW path. -/
  | badPathNone : EErr
  /-- `FileNotFoundError`. -/
  | fnf : String → EErr
  /-- The "destination exists" `FileExistsError` (`export2` line 288). -/
  | destExists : EErr
  /-- OS-level error from the copy/hardlink primitive. -/
  | osErr : String → EErr
  /-- JSON decode error while reading a cached exif payload. -/
  | jsonErr : EErr
deriving DecidableEq, Repr

/-- `os.unlink`. -/
def St.unlink (s : St) (p : Pth) : St :=
  { s with fs := { s.fs with names := alErase s.fs.names p } }

/-- `_copy_file(src, dest)`.
Modelled from the spec: `utils._copy_file` is not in the source tree; the
copy primitive duplicates the source bytes into a fresh inode at `dest`
(replacing any existing entry), preserving the source mtime; extended
attributes are not modelled (`norsrc` has no observable effect here).
Copying from a missing source raises. -/
def St.copyF (s : St) (src dst : Pth) : Except EErr St :=
  match s.dataAt src with
  | none => .error (.osErr "copy: missing source")
  | some d =>
      .ok { s with
              fs := { s.fs with
                        names := alSet (alErase s.fs.names dst) dst s.nextIno,
                        datas := alSet s.fs.datas s.nextIno d },
              nextIno := s.nextIno + 1 }

/-- `_hardlink_file(src, dest)`.
Modelled from the spec: `utils._hardlink_file` is not in the source tree;
`os.link` raises if the destination exists or the source is missing,
otherwise the destination name is bound to the source inode. -/
def St.linkF (s : St) (src dst : Pth) : Except EErr St :=
  if s.fs.pexists dst then .error (.osErr "link: destination exists")
  else
    match s.fs.ino src with
    | none => .error (.osErr "link: missing source")
    | some i => .ok { s with fs := { s.fs with names := alSet s.fs.names dst i } }

/-- Truncating file write (`open(filename, "w")` / exiftool rewriting a
file in place): overwrites the data of the existing inode, or creates a
fresh one; the mtime comes from the clock. -/
def St.writeF (s : St) (p : Pth) (bs : List Nat) : St :=
  match s.fs.ino p with
  | some i =>
      { s with fs := { s.fs with datas := alSet s.fs.datas i ⟨bs, s.clock⟩ },
               clock := s.clock + 1 }
  | none =>
      { s with fs := { s.fs with names := alSet s.fs.names p s.nextIno,
                                 datas := alSet s.fs.datas s.nextIno ⟨bs, s.clock⟩ },
               nextIno := s.nextIno + 1,
               clock := s.clock + 1 }

/-! ## `pathlib` name manipulation

Modelled from the spec: stdlib `pathlib` (Python 3.8).  `suffix` is the
part of the name from the last dot on, provided that dot is neither the
first nor the last character; `stem` is the rest. -/

/-- Index (0-based) of the last `.` in the character list, if any. -/
def lastDotIdx (cs : List Char) : Option Nat :=
  match cs with
  | [] => none
  | c :: t =>
      match lastDotIdx t with
      | some i => some (i + 1)
      | none => if c = '.' then some 0 else none

/-- `pathlib.PurePath(name).suffix`. -/
def nameSuffix (n : String) : String :=
  let cs := n.toList
  match lastDotIdx cs with
  | some i => if 0 < i ∧ i < cs.length - 1 then ⟨cs.drop i⟩ else ""
  | none => ""

/-- `pathlib.PurePath(name).stem`. -/
def nameStem (n : String) : String :=
  let cs := n.toList
  match lastDotIdx cs with
  | some i => if 0 < i ∧ i < cs.length - 1 then ⟨cs.take i⟩ else n
  | none => n

/-- Stem of a path's file name. -/
def Pth.stemS (p : Pth) : String := nameStem p.nm

/-- Suffix of a path's file name. -/
def Pth.suffixS (p : Pth) : String := nameSuffix p.nm

/-! ## `fnmatch` / `glob`

Modelled from the spec: stdlib `fnmatch`/`glob`.  Patterns support `*`
(any sequence), `?` (any one character) and `[...]` classes with ranges
and `!` negation, with Python's rules: a `]` directly after the opening
`[` (or after `[!`) is a literal member, an unterminated `[` is a literal
`[`.  `glob` additionally hides names starting with `.` from patterns
that do not themselves start with `.`, and matches only within the given
directory (the directory part is treated literally). -/

/-- One member of a bracket class: a literal character or a range. -/
inductive SetItem where
  | lit : Char → SetItem
  | range : Char → Char → SetItem
deriving DecidableEq, Repr

/-- Parse the members of a `[...]` class up to the closing `]`.
Returns the items and the rest of the pattern, or `none` if the class is
unterminated. -/
def parseSetItems : List Char → Option (List SetItem × List Char)
  | [] => none
  | ']' :: t => some ([], t)
  | a :: '-' :: b :: t =>
      if b = ']' then
        -- trailing '-' is a literal member
        some ([.lit a, .lit '-'], t)
      else
        match parseSetItems t with
        | some (items, rest) => some (.range a b :: items, rest)
        | none => none
  | a :: t =>
      match parseSetItems t with
      | some (items, rest) => some (.lit a :: items, rest)
      | none => none

/-- Parse a full bracket class body (after the `[`): optional `!`
negation, then a first member that may be a literal `]`. -/
def parseSet (cs : List Char) : Option (Bool × List SetItem × List Char) :=
  let (neg, cs1) :=
    match cs with
    | '!' :: t => (true, t)
    | _ => (false, cs)
  -- a ']' right at the start is a literal member
  match cs1 with
  | ']' :: t =>
      (match parseSetItems t with
       | some (items, rest) => some (neg, .lit ']' :: items, rest)
       | none => none)
  | _ =>
      match parseSetItems cs1 with
      | some (items, rest) => some (neg, items, rest)
      | none => none

/-- Membership of a character in a bracket class. -/
def inSet (c : Char) (items : List SetItem) : Bool :=
  items.any fun it =>
    match it with
    | .lit a => c = a
    | .range a b => a.val ≤ c.val ∧ c.val ≤ b.val

/-- `fnmatch.fnmatchcase` on character lists, fuel-driven so that it
evaluates inside the kernel; every recursive call spends one unit and
`globMatch` supplies more than enough. -/
def fnmatchF : Nat → List Char → List Char → Bool
  | 0, _, _ => false
  | _ + 1, [], n => n.isEmpty
  | fuel + 1, p :: ps, n =>
      if p = '*' then
        match n with
        | [] => fnmatchF fuel ps []
        | c :: nt => fnmatchF fuel ps (c :: nt) || fnmatchF fuel ('*' :: ps) nt
      else if p = '?' then
        match n with
        | [] => false
        | _ :: nt => fnmatchF fuel ps nt
      else if p = '[' then
        (match parseSet ps with
         | some (neg, items, rest) =>
             (match n with
              | [] => false
              | c :: nt => (if neg then !(inSet c items) else inSet c items)
                             && fnmatchF fuel rest nt)
         | none =>
             -- unterminated class: literal '['
             (match n with
              | [] => false
              | c :: nt => if c = '[' then fnmatchF fuel ps nt else false))
      else
        match n with
        | [] => false
        | c :: nt => p = c && fnmatchF fuel ps nt

/-- Sufficient fuel for a pattern/name pair: each call consumes a
pattern or a name character. -/
def fnFuel (p n : List Char) : Nat := p.length + n.length + 1

/-- `glob` name matching including the hidden-file rule. -/
def globMatch (pat n : String) : Bool :=
  match n.toList, pat.toList with
  | '.' :: _, '.' :: _ => fnmatchF (fnFuel pat.toList n.toList) pat.toList n.toList
  | '.' :: _, _ => false
  | _, _ => fnmatchF (fnFuel pat.toList n.toList) pat.toList n.toList

/-- `glob.glob(str(dir / pat))`: paths of the entries of `dir` whose
name matches `pat`, in listing order. -/
def FS.globIn (fs : FS) (dir : String) (pat : String) : List Pth :=
  ((fs.entriesIn dir).filter (fun n => globMatch pat n)).map (fun n => ⟨dir, n⟩)

/-! ## Sorting (Python `sorted` on strings: stable, lexicographic by
code point). -/

/-- Lexicographic-by-code-point strict order on character lists
(Python string `<`). -/
def charsLt : List Char → List Char → Bool
  | [], [] => false
  | [], _ :: _ => true
  | _ :: _, [] => false
  | a :: t, b :: u =>
      if a.val.toNat < b.val.toNat then true
      else if b.val.toNat < a.val.toNat then false
      else charsLt t u

/-- Python string `<`. -/
def strLtB (a b : String) : Bool := charsLt a.toList b.toList

/-- Insert into a sorted list, after existing equal elements. -/
def insSorted (a : String) : List String → List String
  | [] => [a]
  | b :: t => if strLtB a b then a :: b :: t else b :: insSorted a t

/-- `sorted` for lists of strings. -/
def pySorted (l : List String) : List String := l.foldr insSorted []

/-! ## JSON

Modelled from the spec: stdlib `json` (not part of the source tree).
`json.dumps` uses the default separators and insertion key order;
the transliteration of non-ASCII characters under `ensure_ascii` is
simplified to minimal escaping (only the quote, the backslash and
control characters are escaped), which is unobservable to the engine:
payload strings are only ever compared to payload strings produced by
the same serializer.  Float literals are not modelled (`json.loads` of
a float fails here); the engine itself never emits numbers. -/

/-- JSON values.  Objects keep their fields in insertion order when
built by the engine; the parser returns objects in key-sorted,
deduplicated form so that structural equality coincides with Python
dict equality. -/
inductive JValue where
  | str : String → JValue
  | num : Int → JValue
  | bool : Bool → JValue
  | null : JValue
  | arr : List JValue → JValue
  | obj : List (String × JValue) → JValue
deriving Repr

mutual

/-- Fuel-driven structural equality of JSON values (Python `==` on
parsed values, given the parser's canonical object form); one unit of
fuel per node visited, so any fuel at least the node count of the first
argument is exact. -/
def beqJF : Nat → JValue → JValue → Bool
  | 0, _, _ => false
  | _ + 1, .str a, .str b => a = b
  | _ + 1, .num a, .num b => a = b
  | _ + 1, .bool a, .bool b => a = b
  | _ + 1, .null, .null => true
  | fuel + 1, .arr a, .arr b => beqArrF fuel a b
  | fuel + 1, .obj a, .obj b => beqObjF fuel a b
  | _ + 1, _, _ => false

def beqArrF : Nat → List JValue → List JValue → Bool
  | _, [], [] => true
  | 0, _, _ => false
  | fuel + 1, a :: t, b :: u => beqJF fuel a b && beqArrF fuel t u
  | _ + 1, _, _ => false

def beqObjF : Nat → List (String × JValue) → List (String × JValue) → Bool
  | _, [], [] => true
  | 0, _, _ => false
  | fuel + 1, (k, a) :: t, (k', b) :: u =>
      k = k' && beqJF fuel a b && beqObjF fuel t u
  | _ + 1, _, _ => false

end

/-- Hex digit for code points escaped as \u00XX. -/
def hexDigit (n : Nat) : Char :=
  if n < 10 then Char.ofNat (48 + n) else Char.ofNat (97 + (n - 10))

/-- Numeric value of a hex digit character. -/
def hexVal (c : Char) : Option Nat :=
  if 48 ≤ c.val.toNat ∧ c.val.toNat ≤ 57 then some (c.val.toNat - 48)
  else if 97 ≤ c.val.toNat ∧ c.val.toNat ≤ 102 then some (c.val.toNat - 87)
  else if 65 ≤ c.val.toNat ∧ c.val.toNat ≤ 70 then some (c.val.toNat - 55)
  else none

/-- Escape one character for a JSON string literal. -/
def escChar (c : Char) : List Char :=
  if c = '"' then ['\\', '"']
  else if c = '\\' then ['\\', '\\']
  else if c = '\n' then ['\\', 'n']
  else if c = '\t' then ['\\', 't']
  else if c = '\r' then ['\\', 'r']
  else if c.val.toNat < 32 then
    ['\\', 'u', '0', '0', hexDigit (c.val.toNat / 16), hexDigit (c.val.toNat % 16)]
  else [c]

/-- Body of a JSON string literal (no surrounding quotes). -/
def escBody (cs : List Char) : List Char := cs.flatMap escChar

/-- Serialize a string as a JSON string literal. -/
def jdumpStr (s : String) : String := ⟨'"' :: (escBody s.toList ++ ['"'])⟩

mutual

/-- `json.dumps` with the default separators. -/
def jdump : JValue → String
  | .str s => jdumpStr s
  | .num n => toString n
  | .bool b => if b then "true" else "false"
  | .null => "null"
  | .arr xs => "[" ++ jdumpArr xs ++ "]"
  | .obj fs => "\x7b" ++ jdumpObj fs ++ "\x7d"

def jdumpArr : List JValue → String
  | [] => ""
  | [x] => jdump x
  | x :: y :: t => jdump x ++ ", " ++ jdumpArr (y :: t)

def jdumpObj : List (String × JValue) → String
  | [] => ""
  | [(k, v)] => jdumpStr k ++ ": " ++ jdump v
  | (k, v) :: f :: t => jdumpStr k ++ ": " ++ jdump v ++ ", " ++ jdumpObj (f :: t)

end

mutual

/-- Fuel sufficient for `beqJF` to traverse its first argument (one
unit per node, summed). -/
def needJ : JValue → Nat
  | .str _ => 1
  | .num _ => 1
  | .bool _ => 1
  | .null => 1
  | .arr l => 1 + needA l
  | .obj l => 1 + needO l

def needA : List JValue → Nat
  | [] => 0
  | x :: t => 1 + needJ x + needA t

def needO : List (String × JValue) → Nat
  | [] => 0
  | (_, x) :: t => 1 + needJ x + needO t

end

/-- Python `==` on JSON values parsed from a source text `src`: the
fuel `src.length + 2` always exceeds the node count of a value parsed
from `src` (`parseVal_needJ` below), so the comparison is exact. -/
def beqJs (src : String) (a b : JValue) : Bool := beqJF (2 + src.toList.length) a b

mutual

theorem beqJF_refl : ∀ v fuel, needJ v ≤ fuel → beqJF fuel v v = true
  | .arr a, 0, h => by simp only [needJ] at h; omega
  | .obj a, 0, h => by simp only [needJ] at h; omega
  | .str a, 0, h => by simp only [needJ] at h; omega
  | .num a, 0, h => by simp only [needJ] at h; omega
  | .bool a, 0, h => by simp only [needJ] at h; omega
  | .null, 0, h => by simp only [needJ] at h; omega
  | .str a, fuel + 1, _ => by simp [beqJF]
  | .num a, fuel + 1, _ => by simp [beqJF]
  | .bool a, fuel + 1, _ => by simp [beqJF]
  | .null, fuel + 1, _ => by simp [beqJF]
  | .arr a, fuel + 1, h => by
      simp only [beqJF]
      exact beqArrF_refl a fuel (by simp only [needJ] at h; omega)
  | .obj a, fuel + 1, h => by
      simp only [beqJF]
      exact beqObjF_refl a fuel (by simp only [needJ] at h; omega)

theorem beqArrF_refl : ∀ l fuel, needA l ≤ fuel → beqArrF fuel l l = true
  | [], 0, _ => by simp [beqArrF]
  | x :: t, 0, h => by simp only [needA] at h; omega
  | [], fuel + 1, _ => by simp [beqArrF]
  | x :: t, fuel + 1, h => by
      simp only [beqArrF, Bool.and_eq_true]
      have h' : needA (x :: t) = 1 + needJ x + needA t := rfl
      rw [h'] at h
      exact ⟨beqJF_refl x fuel (by omega), beqArrF_refl t fuel (by omega)⟩

theorem beqObjF_refl : ∀ l fuel, needO l ≤ fuel → beqObjF fuel l l = true
  | [], 0, _ => by simp [beqObjF]
  | (k, x) :: t, 0, h => by simp only [needO] at h; omega
  | [], fuel + 1, _ => by simp [beqObjF]
  | (k, x) :: t, fuel + 1, h => by
      simp only [beqObjF, Bool.and_eq_true]
      have h' : needO ((k, x) :: t) = 1 + needJ x + needO t := rfl
      rw [h'] at h
      exact ⟨⟨by simp, beqJF_refl x fuel (by omega)⟩, beqObjF_refl t fuel (by omega)⟩

end

/-- Skip JSON whitespace. -/
def skipWs : List Char → List Char
  | c :: t => if c = ' ' ∨ c = '\t' ∨ c = '\n' ∨ c = '\r' then skipWs t else c :: t
  | [] => []

/-- Parse the body of a JSON string literal up to the closing quote
(fuel-driven; each step consumes at least one input character). -/
def parseStrF : Nat → List Char → Option (List Char × List Char)
  | 0, _ => none
  | _ + 1, [] => none
  | fuel + 1, c :: t =>
      if c = '"' then some ([], t)
      else if c = '\\' then
        match t with
        | [] => none
        | e :: r =>
            if e = '"' then (parseStrF fuel r).map (fun (s, r') => ('"' :: s, r'))
            else if e = '\\' then (parseStrF fuel r).map (fun (s, r') => ('\\' :: s, r'))
            else if e = '/' then (parseStrF fuel r).map (fun (s, r') => ('/' :: s, r'))
            else if e = 'n' then (parseStrF fuel r).map (fun (s, r') => ('\n' :: s, r'))
            else if e = 't' then (parseStrF fuel r).map (fun (s, r') => ('\t' :: s, r'))
            else if e = 'r' then (parseStrF fuel r).map (fun (s, r') => ('\r' :: s, r'))
            else if e = 'b' then (parseStrF fuel r).map (fun (s, r') => (Char.ofNat 8 :: s, r'))
            else if e = 'f' then (parseStrF fuel r).map (fun (s, r') => (Char.ofNat 12 :: s, r'))
            else if e = 'u' then
              match r with
              | a :: b :: c2 :: d :: r2 =>
                  (match hexVal a, hexVal b, hexVal c2, hexVal d with
                   | some wa, some wb, some wc, some wd =>
                       (parseStrF fuel r2).map
                         (fun (s, r') =>
                           (Char.ofNat (wa * 4096 + wb * 256 + wc * 16 + wd) :: s, r'))
                   | _, _, _, _ => none)
              | _ => none
            else none
      else (parseStrF fuel t).map (fun (s, r') => (c :: s, r'))

/-- The string-body parser with ample fuel. -/
def parseStrBody (cs : List Char) : Option (List Char × List Char) :=
  parseStrF (cs.length + 1) cs

/-- Maximal run of decimal digits. -/
def spanDigits : List Char → (List Char × List Char)
  | [] => ([], [])
  | c :: t =>
      if 48 ≤ c.val.toNat ∧ c.val.toNat ≤ 57 then
        let (ds, r) := spanDigits t
        (c :: ds, r)
      else ([], c :: t)

/-- Numeric value of a digit run. -/
def digitsToNat (ds : List Char) : Nat :=
  ds.foldl (fun acc c => acc * 10 + (c.val.toNat - 48)) 0

/-- The input after an optional leading minus sign. -/
def signStrip (cs : List Char) : List Char :=
  match cs with
  | [] => []
  | c :: t => if c = '-' then t else c :: t

/-- Parse an integer literal (float syntax is unsupported and fails). -/
def parseNum (cs : List Char) : Option (JValue × List Char) :=
  let negSign : Bool :=
    match cs with
    | [] => false
    | c :: _ => c = '-'
  match spanDigits (signStrip cs) with
  | ([], _) => none
  | (ds, r) =>
      if (match r with
          | [] => false
          | c :: _ => decide (c = '.' ∨ c = 'e' ∨ c = 'E')) then none
      else
        let n : Int := Int.ofNat (digitsToNat ds)
        some (.num (if negSign then -n else n), r)

/-- Insert a field into a key-sorted field list, replacing an equal key
(Python dict later-wins semantics, canonicalized). -/
def insField (k : String) (v : JValue) : List (String × JValue) → List (String × JValue)
  | [] => [(k, v)]
  | (k0, v0) :: t =>
      if k = k0 then (k, v) :: t
      else if strLtB k k0 then (k, v) :: (k0, v0) :: t
      else (k0, v0) :: insField k v t

mutual

/-- Fuel-driven JSON value parser (`json.loads`); every recursive call
uses one unit of fuel, and call sites supply fuel exceeding the token
count of the input. -/
def parseVal : Nat → List Char → Option (JValue × List Char)
  | 0, _ => none
  | fuel + 1, cs =>
      match skipWs cs with
      | [] => parseNum []
      | c :: t =>
          if c = '"' then (parseStrBody t).map (fun (s, r) => (JValue.str ⟨s⟩, r))
          else if c = '[' then
            (match skipWs t with
             | [] =>
                 (match parseElems fuel [] with
                  | some (vs, r) => some (.arr vs, r)
                  | none => none)
             | d :: r0 =>
                 if d = ']' then some (.arr [], r0)
                 else
                   match parseElems fuel (d :: r0) with
                   | some (vs, r) => some (.arr vs, r)
                   | none => none)
          else if c = '\x7b' then
            (match skipWs t with
             | [] =>
                 (match parseFields fuel [] with
                  | some (fs, r) => some (.obj fs, r)
                  | none => none)
             | d :: r0 =>
                 if d = '\x7d' then some (.obj [], r0)
                 else
                   match parseFields fuel (d :: r0) with
                   | some (fs, r) => some (.obj fs, r)
                   | none => none)
          else if c = 't' ∧ t.take 3 = ['r', 'u', 'e'] then some (.bool true, t.drop 3)
          else if c = 'f' ∧ t.take 4 = ['a', 'l', 's', 'e'] then some (.bool false, t.drop 4)
          else if c = 'n' ∧ t.take 3 = ['u', 'l', 'l'] then some (.null, t.drop 3)
          else parseNum (c :: t)

/-- Comma-separated values up to the closing bracket. -/
def parseElems : Nat → List Char → Option (List JValue × List Char)
  | 0, _ => none
  | fuel + 1, cs =>
      match parseVal fuel cs with
      | some (v, rest) =>
          (match skipWs rest with
           | [] => none
           | d :: r2 =>
               if d = ',' then
                 match parseElems fuel r2 with
                 | some (vs, r3) => some (v :: vs, r3)
                 | none => none
               else if d = ']' then some ([v], r2)
               else none)
      | none => none

/-- Comma-separated object fields up to the closing brace, canonicalized
into key-sorted later-wins form. -/
def parseFields : Nat → List Char → Option (List (String × JValue) × List Char)
  | 0, _ => none
  | fuel + 1, cs =>
      match skipWs cs with
      | [] => none
      | c :: t =>
          if c = '"' then
            (match parseStrBody t with
             | some (kcs, r1) =>
                 (match skipWs r1 with
                  | [] => none
                  | d1 :: r2 =>
                      if d1 = ':' then
                        match parseVal fuel r2 with
                        | some (v, r3) =>
                            (match skipWs r3 with
                             | [] => none
                             | d2 :: r4 =>
                                 if d2 = ',' then
                                   match parseFields fuel r4 with
                                   | some (fs, r5) => some (insField ⟨kcs⟩ v fs, r5)
                                   | none => none
                                 else if d2 = '\x7d' then some ([(⟨kcs⟩, v)], r4)
                                 else none)
                        | none => none
                      else none)
             | none => none)
          else none

end

/-- `json.loads(s)[0]`: parse the whole string, then Python indexing by
zero (an array yields its head, a string its first character, anything
else or an empty value raises). -/
def pyIndex0 : JValue → Option JValue
  | .arr (x :: _) => some x
  | .str s =>
      (match s.toList with
       | c :: _ => some (.str ⟨[c]⟩)
       | [] => none)
  | _ => none

/-- `json.loads(s)[0]` as used by the engine on cached/current exif
payloads; `none` is a raised exception (decode, index or type error). -/
def loadsIndex0 (s : String) : Option JValue :=
  match parseVal (s.toList.length + 1) s.toList with
  | some (v, rest) => if skipWs rest = [] then pyIndex0 v else none
  | none => none

/-! ## The asset record and export options -/

/-- Substring test (Python `needle in haystack`). -/
def subAt (n : List Char) : List Char → Bool
  | [] => n.isEmpty
  | c :: t => n.isPrefixOf (c :: t) || subAt n t

/-- Python `needle in haystack` on strings. -/
def isSubstr (needle hay : String) : Bool := subAt needle.toList hay.toList

/-- Modelled from the spec: `_UNKNOWN_PERSON` from `_constants` (not in
the source tree); the sentinel name Photos uses for unnamed faces. -/
def UNKNOWN_PERSON : String := "_UNKNOWN_"

/-- Modelled from the spec: `_OSXPHOTOS_NONE_SENTINEL` from `_constants`
(not in the source tree); the "no value" marker the template renderer
substitutes for unmatched fields. -/
def NONE_SENTINEL : String := "_OSXPHOTOS_NONE_SENTINEL_"

/-- Modelled from the spec: `_MAX_IPTC_KEYWORD_LEN` from `_constants`
(not in the source tree); only used for a warning, never for filtering. -/
def MAX_IPTC_KEYWORD_LEN : Nat := 64

/-- Python truthiness of an optional string (`None` and `""` are falsy). -/
def pyTruthy : Option String → Bool
  | some s => !s.isEmpty
  | none => false

/-- A read-only `PhotoInfo` view: exactly the attributes the export
engine reads.  `renderT` is the opaque template renderer capability
(`render_template` with the engine's fixed `none_str`/`path_sep`),
returning rendered strings and unmatched tokens.  The date fields hold
the `strftime` renderings the engine uses (`datetime` internals are
external): `dateYMD` is `strftime("%Y:%m:%d %H:%M:%S")` and
`offSign`/`offHH`/`offMM` are the groups the engine's regex extracts
from `strftime("%z")`.  `location` is in microdegrees (float arithmetic
is out of scope; `dd_to_dms_str` is modelled below). -/
structure Asset where
  uuid : String
  filename : String
  hasadjustments : Bool
  ismissing : Bool
  path : Option Pth
  pathEdited : Option Pth
  livePhotoFlag : Bool
  pathLivePhoto : Option Pth
  hasRaw : Bool
  pathRaw : Option Pth
  burst : Bool
  description : Option String
  title : Option String
  keywords : List String
  persons : List String
  albums : List String
  jsonRepr : String
  renderT : String → List String × List String
  location : Option (Int × Int)
  dateYMD : String
  offSign : String
  offHH : String
  offMM : String
  dateModified : Option String

/-- The keyword arguments of `export2`.  `keywordTemplate = []` is
`keyword_template=None` (same truthiness).  `dbOn = false` is
`export_db=None`, i.e. the `ExportDBNoOp` store.  `oracleFiles` is the
result of the external AppleScript automation used by the
`use_photos_export` path (`none` = it returned nothing); the files that
path would produce on disk are outside this model.  `timeout` is only
passed through to that external path and is omitted. -/
structure Opts where
  edited : Bool := false
  livePhoto : Bool := false
  rawPhoto : Bool := false
  hardlink : Bool := false
  overwrite : Bool := false
  increment : Bool := true
  sidecarJson : Bool := false
  sidecarXmp : Bool := false
  usePhotosExport : Bool := false
  exiftool : Bool := false
  noXattr : Bool := false
  albumsKw : Bool := false
  personsKw : Bool := false
  keywordTemplate : List String := []
  update : Bool := false
  dbOn : Bool := false
  oracleFiles : Option (List Pth) := none

/-- Modelled from the spec: `dd_to_dms_str` from `utils` (not in the
source tree); renders a microdegree coordinate pair in
degree-minute-second string form. -/
def dmsOne (v : Int) : String :=
  let n := v.natAbs
  toString (n / 1000000) ++ " deg " ++ toString ((n % 1000000) * 60 / 1000000) ++ "' "
    ++ toString ((n * 60 % 1000000) * 60 / 1000000) ++ "\""

/-- Modelled from the spec: the (latitude, longitude) DMS string pair. -/
def ddToDmsStr (lat lon : Int) : String × String := (dmsOne lat, dmsOne lon)

/-- Helper: a JSON array of strings. -/
def arrStr (l : List String) : JValue := .arr (l.map .str)

/-- The keyword list assembled by `_exiftool_json_sidecar`
(lines 816–861): own keywords, then sorted persons (without the unknown
sentinel) when requested, then sorted albums when requested, then the
sorted sentinel-filtered template renderings.  The guarded
`keyword_list.extend(self.keywords)` on an empty list is the identity,
so the list starts as `keywords`. -/
def sidecarKeywords (a : Asset) (albumsKw personsKw : Bool) (kt : List String) :
    List String × List String :=
  let keywordList : List String := a.keywords
  let personList : List String :=
    if a.persons ≠ [] then pySorted (a.persons.filter (fun p => p ≠ UNKNOWN_PERSON)) else []
  let kw2 := if personsKw ∧ personList ≠ [] then keywordList ++ pySorted personList
             else keywordList
  let kw3 := if albumsKw ∧ a.albums ≠ [] then kw2 ++ pySorted a.albums else kw2
  let kw4 :=
    if kt ≠ [] then
      let rendered := kt.flatMap (fun t => (a.renderT t).1)
      let rendered :=
        (pySorted rendered).filter (fun k => !(isSubstr NONE_SENTINEL k))
      -- overlong keywords only trigger a warning (line 856); none are dropped
      kw3 ++ rendered
    else kw3
  (kw4, personList)

/-- `_exiftool_json_sidecar` (lines 779–904), as the insertion-ordered
tag dictionary before serialization.  In the chained assignment
`exif["XMP:TagsList"] = exif["IPTC:Keywords"] = keyword_list` the
targets are assigned left to right, fixing the key order. -/
def exiftoolJsonDict (a : Asset) (albumsKw personsKw : Bool) (kt : List String) :
    List (String × JValue) :=
  let e : List (String × JValue) :=
    [("_CreatedBy", .str "osxphotos, https://github.com/RhetTbull/osxphotos")]
  let e := if pyTruthy a.description then
      e ++ [("EXIF:ImageDescription", .str (a.description.getD "")),
            ("XMP:Description", .str (a.description.getD ""))]
    else e
  let e := if pyTruthy a.title then e ++ [("XMP:Title", .str (a.title.getD ""))] else e
  let (keywordList, personList) := sidecarKeywords a albumsKw personsKw kt
  let e := if keywordList ≠ [] then
      e ++ [("XMP:TagsList", arrStr keywordList), ("IPTC:Keywords", arrStr keywordList)]
    else e
  let e := if personList ≠ [] then e ++ [("XMP:PersonInImage", arrStr personList)] else e
  let e := if a.keywords ≠ [] ∨ personList ≠ [] then
      e ++ [("XMP:Subject", arrStr (a.keywords ++ personList))]
    else e
  let e :=
    match a.location with
    | some (lat, lon) =>
        let (latStr, lonStr) := ddToDmsStr lat lon
        e ++ [("EXIF:GPSLatitude", .str latStr),
              ("EXIF:GPSLongitude", .str lonStr),
              ("Composite:GPSPosition", .str (latStr ++ ", " ++ lonStr)),
              ("EXIF:GPSLatitudeRef", .str (if 0 ≤ lat then "North" else "South")),
              ("EXIF:GPSLongitudeRef", .str (if 0 ≤ lon then "East" else "West"))]
    | none => e
  let e := e ++ [("EXIF:DateTimeOriginal", .str a.dateYMD),
                 ("EXIF:OffsetTimeOriginal",
                  .str (a.offSign ++ a.offHH ++ ":" ++ a.offMM))]
  match a.dateModified with
  | some m => e ++ [("EXIF:ModifyDate", .str m)]
  | none => e

/-- `_exiftool_json_sidecar` as the JSON string (`json.dumps([exif])`). -/
def exiftoolJsonSidecar (a : Asset) (albumsKw personsKw : Bool) (kt : List String) :
    String :=
  jdump (.arr [.obj (exiftoolJsonDict a albumsKw personsKw kt)])

/-- Modelled from the spec: the mako XMP template rendering (template
file not in the source tree); an opaque deterministic function of the
asset and the three lists passed to it. -/
def xmpRender (a : Asset) (kws ps subj : List String) : String :=
  String.intercalate "\n"
    (["<x:xmpmeta uuid=" ++ a.uuid ++ ">"] ++ kws ++ ps ++ subj ++ ["</x:xmpmeta>"])

/-- `_xmp_sidecar` (lines 907–983): same keyword assembly but with the
person list and template renderings left unsorted, then the mako
rendering with mako's blank lines stripped. -/
def xmpSidecar (a : Asset) (albumsKw personsKw : Bool) (kt : List String) : String :=
  let keywordList : List String := a.keywords
  let personList : List String :=
    if a.persons ≠ [] then a.persons.filter (fun p => p ≠ UNKNOWN_PERSON) else []
  let kw2 := if personsKw ∧ personList ≠ [] then keywordList ++ personList else keywordList
  let kw3 := if albumsKw ∧ a.albums ≠ [] then kw2 ++ a.albums else kw2
  let kw4 :=
    if kt ≠ [] then
      let rendered := kt.flatMap (fun t => (a.renderT t).1)
      kw3 ++ rendered.filter (fun k => !(isSubstr NONE_SENTINEL k))
    else kw3
  let subjectList :=
    if a.keywords ≠ [] ∨ personList ≠ [] then a.keywords ++ personList else []
  let raw := xmpRender a kw4 personList subjectList
  String.intercalate "\n" ((raw.splitOn "\n").filter (fun l => l.trim ≠ ""))

/-- Byte rendering of a string written to a file (UTF-8 abstracted to
one code point per byte cell). -/
def strBytes (s : String) : List Nat := s.toList.map (fun c => c.val.toNat)

/-- Modelled from the spec: the observable effect of `_write_exif_data`
(lines 749–776) on the target file: the external exiftool rewrites the
file in place as a function of the embedded payload. -/
def embedBytes (payload : String) (old : List Nat) : List Nat :=
  old ++ strBytes payload

/-! ## The file materializer (`_export_photo`, lines 600–746) -/

/-- The `ExportResults` namedtuple (paths kept as `Pth`). -/
structure ExpRes where
  exported : List Pth
  new : List Pth
  updated : List Pth
  skipped : List Pth
  exifUpd : List Pth
deriving DecidableEq, Repr

/-- Concatenate two result sets (`list.extend` on every field). -/
def accAppend (x y : ExpRes) : ExpRes :=
  ⟨x.exported ++ y.exported, x.new ++ y.new, x.updated ++ y.updated,
   x.skipped ++ y.skipped, x.exifUpd ++ y.exifUpd⟩

/-- The five ledger writes every state-changing materializer branch
performs (e.g. lines 643–647): uuid, info, fresh original signature,
exif signature reset, exif payload reset. -/
def ledStamp (a : Asset) (dest : Pth) (dbOn : Bool) (s : St) : St :=
  let s := s.setUuid dbOn dest a.uuid
  let s := s.setInfo dbOn a.uuid a.jsonRepr
  let s := s.setSOrig dbOn dest (s.fileSigD dest)
  let s := s.setSExif dbOn dest none
  s.setExifData dbOn dest none

/-- `_export_photo`: copy or hardlink one source to one resolved
destination, classify the outcome, update the ledger.  Errors carry the
state at the point of raising. -/
def expPhotoFile (a : Asset) (src dest : Pth) (update overwrite hardlink exiftool dbOn : Bool)
    (s : St) : Except EErr ExpRes × St :=
  -- dest_exists (line 633) is computed before any branch acts; no branch
  -- changes the filesystem before reading it, so it is inlined here
  if hardlink then
    if ¬update then
      match (if overwrite ∧ s.fs.pexists dest then s.unlink dest else s).linkF src dest with
      | .error e => (.error e, if overwrite ∧ s.fs.pexists dest then s.unlink dest else s)
      | .ok s1 => (.ok ⟨[dest], [], [], [], []⟩, ledStamp a dest dbOn s1)
    else if s.fs.pexists dest ∧ s.samefile dest src then
      -- update, already hardlinked to the right file: no-op
      (.ok ⟨[], [], [], [dest], []⟩, s)
    else if s.fs.pexists dest then
      match (s.unlink dest).linkF src dest with
      | .error e => (.error e, s.unlink dest)
      | .ok s1 => (.ok ⟨[dest], [], [dest], [], []⟩, ledStamp a dest dbOn s1)
    else
      match s.linkF src dest with
      | .error e => (.error e, s)
      | .ok s1 => (.ok ⟨[dest], [dest], [], [], []⟩, ledStamp a dest dbOn s1)
  else
    if ¬update then
      match (if overwrite ∧ s.fs.pexists dest then s.unlink dest else s).copyF src dest with
      | .error e => (.error e, if overwrite ∧ s.fs.pexists dest then s.unlink dest else s)
      | .ok s1 => (.ok ⟨[dest], [], [], [], []⟩, ledStamp a dest dbOn s1)
    else if s.fs.pexists dest ∧ ¬exiftool ∧ s.pycmp src dest ∧ ¬s.samefile dest src then
      -- destination exists but is identical
      (.ok ⟨[], [], [], [dest], []⟩, s.setSOrig dbOn dest (s.fileSigD dest))
    else if s.fs.pexists dest ∧ exiftool ∧ s.cmpFileSig dest (s.getSExif dbOn dest)
              ∧ ¬s.samefile dest src then
      (.ok ⟨[], [], [], [dest], []⟩, s)
    else if s.fs.pexists dest then
      -- destination exists but is different or is a hardlink
      match (s.unlink dest).copyF src dest with
      | .error e => (.error e, s.unlink dest)
      | .ok s1 => (.ok ⟨[dest], [], [dest], [], []⟩, ledStamp a dest dbOn s1)
    else
      match s.copyF src dest with
      | .error e => (.error e, s)
      | .ok s1 => (.ok ⟨[dest], [dest], [], [], []⟩, ledStamp a dest dbOn s1)

/-! ## Destination resolution (`export2`, lines 266–383) -/

/-- Decimal digit characters of a positive numeral, most significant
first, fuel-driven (the value itself is ample fuel).  Modelled from the
spec: Python decimal string formatting. -/
def natDigsF : Nat → Nat → List Char
  | 0, _ => []
  | _ + 1, 0 => []
  | fuel + 1, n + 1 =>
      natDigsF fuel ((n + 1) / 10) ++ [Char.ofNat (48 + (n + 1) % 10)]

/-- Decimal rendering of a natural number. -/
def natStr (n : Nat) : String := if n = 0 then "0" else ⟨natDigsF n n⟩

/-- The candidate name `f"{stem} ({n})"`. -/
def candName (stem : String) (n : Nat) : String :=
  stem ++ " (" ++ natStr n ++ ")"

/-- The collision loop body (lines 276–279 / 378–381): candidates
`stem`, `stem (1)`, `stem (2)`, … against the glob stem list; the fuel
bounds the search and always suffices (pigeonhole). -/
def findFreeAux (stem : String) (stems : List String) : Nat → Nat → String
  | 0, n => candName stem n
  | fuel + 1, n =>
      let c := candName stem n
      if stems.contains c then findFreeAux stem stems fuel (n + 1) else c

/-- The resolved stem after the increment loop. -/
def findFree (stem : String) (stems : List String) : String :=
  if stems.contains stem then findFreeAux stem stems (stems.length + 1) 1 else stem

/-- The stem-increment algorithm (lines 271–280, repeated at 373–382):
glob for `stem*`, collect stems, append `" (n)"` until free. -/
def incrementStem (fs : FS) (d : Pth) : Pth :=
  let stems := (fs.globIn d.par (d.stemS ++ "*")).map (fun p => nameStem p.nm)
  ⟨d.par, findFree d.stemS stems ++ d.suffixS⟩

/-- The sibling scan (lines 341–366): first glob match owned by this
asset's uuid, or untracked and byte-identical to the source (adopted
with a ledger backfill). -/
def scanSibs (a : Asset) (src : Pth) (dbOn : Bool) (s : St) :
    List Pth → Option (Pth × St)
  | [] => none
  | f :: t =>
      match s.getUuid dbOn f with
      | some u => if u = a.uuid then some (f, s) else scanSibs a src dbOn s t
      | none =>
          if s.pycmp src f then some (f, ledStamp a f dbOn s)
          else scanSibs a src dbOn s t

/-- Destination reconciliation in update mode when the candidate exists
(lines 322–383): adopt an untracked identical file at the candidate,
else find the sibling owned by this asset, else mint a fresh
incremented path. -/
def resolveUpd (a : Asset) (src dest : Pth) (dbOn : Bool) (s : St) : Pth × St :=
  let du0 := s.getUuid dbOn dest
  let (du, s1) :=
    if du0 = none ∧ s.pycmp src dest then (some a.uuid, ledStamp a dest dbOn s)
    else (du0, s)
  if du = some a.uuid then (dest, s1)
  else
    let pat := dest.stemS ++ " (*" ++ dest.suffixS
    match scanSibs a src dbOn s1 (s1.fs.globIn dest.par pat) with
    | some (f, s2) => (f, s2)
    | none => (incrementStem s1.fs dest, s1)

/-! ## `export2` assembly -/

/-- Filename selection (lines 206–238): one positional name is used
verbatim; zero (or two, which are ignored) fall back to the asset's
filename, with the `_edited` stem suffix and the edited file's
extension for local edited exports. -/
def composeFname (a : Asset) (fns : List String) (o : Opts) : Except EErr String :=
  match fns with
  | [n] => .ok n
  | _ =>
      if o.edited ∧ ¬o.usePhotosExport then
        match a.pathEdited with
        | none => .error (.fnf "edited=True but path_edited is none")
        | some pe => .ok (nameStem a.filename ++ "_edited" ++ nameSuffix pe.nm)
      else .ok a.filename

/-- Source file selection for the local path (lines 296–312). -/
def localSrc (a : Asset) (edited : Bool) : Except EErr Pth :=
  if edited then
    match a.pathEdited with
    | some p => .ok p
    | none => .error (.fnf "Cannot export edited photo if path_edited is None")
  else
    match a.path with
    | some p => .ok p
    | none => .error (.fnf "Cannot export photo if path is None")

/-- Live-video companion step (lines 402–425). -/
def livePart (a : Asset) (o : Opts) (d : Pth) (acc : ExpRes) (s : St) :
    Except EErr ExpRes × St :=
  if o.livePhoto ∧ a.livePhotoFlag then
    match a.pathLivePhoto with
    | some lsrc =>
        (match expPhotoFile a lsrc ⟨d.par, d.stemS ++ ".mov"⟩ o.update o.overwrite
                o.hardlink o.exiftool o.dbOn s with
         | (.ok r, s') => (.ok (accAppend acc r), s')
         | (.error e, s') => (.error e, s'))
    | none => (.ok acc, s)
  else (.ok acc, s)

/-- RAW companion step (lines 428–449); a missing `path_raw` raises the
`pathlib.Path(None)` `TypeError`. -/
def rawPart (a : Asset) (o : Opts) (d : Pth) (acc : ExpRes) (s : St) :
    Except EErr ExpRes × St :=
  if o.rawPhoto ∧ a.hasRaw then
    match a.pathRaw with
    | none => (.error .badPathNone, s)
    | some rp =>
        (match expPhotoFile a rp ⟨d.par, d.stemS ++ nameSuffix rp.nm⟩ o.update o.overwrite
                o.hardlink o.exiftool o.dbOn s with
         | (.ok r, s') => (.ok (accAppend acc r), s')
         | (.error e, s') => (.error e, s'))
  else (.ok acc, s)

/-- Sidecar writes (lines 499–525): the JSON and XMP sidecars next to
the destination, named by its stem. -/
def sidecarPart (a : Asset) (o : Opts) (d : Pth) (s : St) : St :=
  let s := if o.sidecarJson then
      s.writeF ⟨d.par, d.stemS ++ ".json"⟩
        (strBytes (exiftoolJsonSidecar a o.albumsKw o.personsKw o.keywordTemplate))
    else s
  if o.sidecarXmp then
    s.writeF ⟨d.par, d.stemS ++ ".xmp"⟩
      (strBytes (xmpSidecar a o.albumsKw o.personsKw o.keywordTemplate))
  else s

/-- The metadata write for one file (lines 554–570 / 573–589):
`_write_exif_data` rewrites the file, then the payload and the
post-exif signature are recorded and the path appended. -/
def writeExifTo (a : Asset) (o : Opts) (f : Pth) (acc : List Pth) (s : St) :
    Except EErr (List Pth) × St :=
  let freshStr := exiftoolJsonSidecar a o.albumsKw o.personsKw o.keywordTemplate
  if ¬ s.fs.pexists f then (.error (.fnf "Could not find file"), s)
  else
    let s := s.writeF f (embedBytes freshStr (((s.dataAt f).map FData.bytes).getD []))
    let s := s.setExifData o.dbOn f (some freshStr)
    let s := s.setSExif o.dbOn f (some (s.fileSigD f))
    (.ok (acc ++ [f]), s)

/-- Per-file body of the update-mode exif loop (lines 536–570): skip
when a cached payload exists and its parsed first element equals the
freshly recomputed one, otherwise write. -/
def exifStep (a : Asset) (o : Opts) (f : Pth) (acc : List Pth) (s : St) :
    Except EErr (List Pth) × St :=
  let freshStr := exiftoolJsonSidecar a o.albumsKw o.personsKw o.keywordTemplate
  match s.getExifData o.dbOn f with
  | some old =>
      (match loadsIndex0 old with
       | none => (.error .jsonErr, s)
       | some ov =>
           match loadsIndex0 freshStr with
           | none => (.error .jsonErr, s)
           | some cv =>
               if beqJs old ov cv then (.ok acc, s)
               else writeExifTo a o f acc s)
  | none => writeExifTo a o f acc s

/-- The update-mode exif loop (lines 535–570). -/
def exifLoop (a : Asset) (o : Opts) : List Pth → List Pth → St →
    Except EErr (List Pth) × St
  | [], acc, s => (.ok acc, s)
  | f :: t, acc, s =>
      match exifStep a o f acc s with
      | (.ok acc', s') => exifLoop a o t acc' s'
      | (.error e, s') => (.error e, s')

/-- The non-update exif loop (lines 572–589): unconditional writes. -/
def exifLoopNoUpd (a : Asset) (o : Opts) : List Pth → List Pth → St →
    Except EErr (List Pth) × St
  | [], acc, s => (.ok acc, s)
  | f :: t, acc, s =>
      match writeExifTo a o f acc s with
      | (.ok acc', s') => exifLoopNoUpd a o t acc' s'
      | (.error e, s') => (.error e, s')

/-- The exif embedding stage (lines 527–589). -/
def exifStage (a : Asset) (o : Opts) (r : ExpRes) (s : St) :
    Except EErr (List Pth) × St :=
  let exifFiles := if o.update then r.new ++ r.updated ++ r.skipped else r.exported
  if o.exiftool ∧ o.update ∧ exifFiles ≠ [] then exifLoop a o exifFiles [] s
  else if o.exiftool ∧ exifFiles ≠ [] then exifLoopNoUpd a o exifFiles [] s
  else (.ok [], s)

/-- The local (non-AppleScript) materialization sequence: primary file,
then live and RAW companions (lines 385–449). -/
def localPart (a : Asset) (o : Opts) (src d : Pth) (s : St) : Except EErr ExpRes × St :=
  match expPhotoFile a src d o.update o.overwrite o.hardlink o.exiftool o.dbOn s with
  | (.error e, s') => (.error e, s')
  | (.ok r1, s') =>
      match livePart a o d r1 s' with
      | (.error e, s2) => (.error e, s2)
      | (.ok r2, s2) => rawPart a o d r2 s2

/-- `export2` (lines 117–597).  The state at the point of raising is
returned alongside every error. -/
def export2 (a : Asset) (dest : Option String) (fns : List String) (o : Opts)
    (s0 : St) : Except EErr ExpRes × St :=
  if o.edited ∧ ¬a.hasadjustments then
    (.error (.valueErr "Photo does not have adjustments"), s0)
  else if fns.length > 2 then (.error .tooManyArgs, s0)
  else
    match dest with
    | none => (.error (.valueErr "Destination must not be None"), s0)
    | some dd =>
        if ¬ s0.fs.isdir dd then (.error (.fnf "Invalid path passed to export"), s0)
        else
          match composeFname a fns o with
          | .error e => (.error e, s0)
          | .ok fname =>
              let d0 : Pth := ⟨dd, fname⟩
              -- suffix mismatch check (lines 246–264) only logs a warning
              let d1 := if ¬o.update ∧ o.increment ∧ ¬o.overwrite then
                  incrementStem s0.fs d0
                else d0
              if s0.fs.pexists d1 ∧ ¬o.update ∧ ¬o.overwrite ∧ ¬o.increment then
                (.error .destExists, s0)
              else if ¬ o.usePhotosExport then
                match localSrc a o.edited with
                | .error e => (.error e, s0)
                | .ok src =>
                    if ¬ s0.fs.pexists src then
                      (.error (.fnf "src does not appear to exist"), s0)
                    else
                      let rd := if o.update ∧ s0.fs.pexists d1 then
                          resolveUpd a src d1 o.dbOn s0
                        else (d1, s0)
                      match localPart a o src rd.1 rd.2 with
                      | (.error e, s2) => (.error e, s2)
                      | (.ok r, s2) =>
                          -- dead read of get_info_for_uuid (line 497) omitted
                          let s3 := sidecarPart a o rd.1 s2
                          (match exifStage a o r s3 with
                           | (.error e, s4) => (.error e, s4)
                           | (.ok exifU, s4) =>
                               (.ok ⟨r.exported, r.new, r.updated, r.skipped, exifU⟩, s4))
              else
                -- use_photos_export: delegate to the AppleScript
                -- automation (lines 450–494); its filesystem effects are
                -- outside the model, only the returned path list is kept
                let de : Pth :=
                  if o.edited ∧ fns = [] then ⟨d1.par, d1.stemS ++ "_edited" ++ ".jpeg"⟩
                  else d1
                let r : ExpRes := ⟨(o.oracleFiles.getD []), [], [], [], []⟩
                let s3 := sidecarPart a o de s0
                (match exifStage a o r s3 with
                 | (.error e, s4) => (.error e, s4)
                 | (.ok exifU, s4) =>
                     (.ok ⟨r.exported, r.new, r.updated, r.skipped, exifU⟩, s4))

/-- `export` (lines 38–114): delegates to `export2` with `update` left
at its default `False` and `export_db=None` (the no-op ledger), and
returns only the `exported` field. -/
def exportFn (a : Asset) (dest : Option String) (fns : List String) (o : Opts)
    (s : St) : Except EErr (List Pth) × St :=
  match export2 a dest fns { o with update := false, dbOn := false } s with
  | (.ok r, s') => (.ok r.exported, s')
  | (.error e, s') => (.error e, s')

/-! ## Concrete fixtures used by witnesses and counterexamples -/

/-- A source file location. -/
def srcP : Pth := ⟨"s", "p.jpg"⟩

/-- The destination directory. -/
def dstDir : String := "d"

/-- The composed destination for the default filename. -/
def dstP : Pth := ⟨"d", "p.jpg"⟩

/-- A minimal asset whose primary file is `srcP`. -/
def baseAsset : Asset where
  uuid := "u1"
  filename := "p.jpg"
  hasadjustments := false
  ismissing := false
  path := some srcP
  pathEdited := none
  livePhotoFlag := false
  pathLivePhoto := none
  hasRaw := false
  pathRaw := none
  burst := false
  description := none
  title := none
  keywords := []
  persons := []
  albums := []
  jsonRepr := "info-u1"
  renderT := fun _ => ([], [])
  location := none
  dateYMD := "2020:01:01 00:00:00"
  offSign := "+"
  offHH := "00"
  offMM := "00"
  dateModified := none

/-- An empty ledger. -/
def led0 : Ledger := ⟨[], [], [], [], []⟩

/-- World with just the source file. -/
def stSrcOnly : St := ⟨⟨[(srcP, 1)], [(1, ⟨[7, 7], 5⟩)], ["d", "s"]⟩, led0, 100, 50⟩

/-- World where the destination also exists, byte-identical to the
source but on a distinct inode. -/
def stDup : St :=
  ⟨⟨[(srcP, 1), (dstP, 2)], [(1, ⟨[7, 7], 5⟩), (2, ⟨[7, 7], 5⟩)], ["d", "s"]⟩,
   led0, 100, 50⟩

/-- World where the destination is a hardlink of the source. -/
def stHardlinked : St :=
  ⟨⟨[(srcP, 1), (dstP, 1)], [(1, ⟨[7, 7], 5⟩)], ["d", "s"]⟩, led0, 100, 50⟩

/-- `stHardlinked` with the destination already owned by the asset in
the ledger. -/
def stHardLed : St :=
  { stHardlinked with led := { led0 with uuidFor := [(dstP, "u1")] } }

/-! ## Association-list and state frame lemmas -/

theorem alGet_set_self {κ α : Type} [DecidableEq κ] (l : List (κ × α)) (k : κ) (a : α) :
    alGet (alSet l k a) k = some a := by
  induction l with
  | nil => simp [alSet, alGet]
  | cons h t ih =>
      obtain ⟨k0, a0⟩ := h
      by_cases hk : k0 = k <;> simp [alSet, alGet, hk, ih]

theorem alGet_set_other {κ α : Type} [DecidableEq κ] (l : List (κ × α)) (k k' : κ)
    (a : α) (h : k ≠ k') : alGet (alSet l k a) k' = alGet l k' := by
  induction l with
  | nil => simp [alSet, alGet, h]
  | cons hd t ih =>
      obtain ⟨k0, a0⟩ := hd
      by_cases hk : k0 = k
      · subst hk; simp [alSet, alGet, h]
      · simp [alSet, hk, alGet, ih]

theorem alGet_erase_self {κ α : Type} [DecidableEq κ] (l : List (κ × α)) (k : κ) :
    alGet (alErase l k) k = none := by
  induction l with
  | nil => simp [alErase, alGet]
  | cons hd t ih =>
      obtain ⟨k0, a0⟩ := hd
      by_cases hk : k0 = k <;> simp [alErase, alGet, hk, ih]

theorem alGet_erase_other {κ α : Type} [DecidableEq κ] (l : List (κ × α)) (k k' : κ)
    (h : k' ≠ k) : alGet (alErase l k) k' = alGet l k' := by
  induction l with
  | nil => simp [alErase, alGet]
  | cons hd t ih =>
      obtain ⟨k0, a0⟩ := hd
      by_cases hk : k0 = k
      · subst hk
        have h2 : k0 ≠ k' := fun e => h e.symm
        simp [alErase, alGet, ih, h2]
      · simp [alErase, hk, alGet, ih]

theorem dataAt_unlink_other (s : St) (p q : Pth) (h : q ≠ p) :
    (s.unlink p).dataAt q = s.dataAt q := by
  unfold St.dataAt St.unlink FS.ino FS.fdata
  simp only
  rw [alGet_erase_other _ _ _ h]

/-! ## Claim theorems -/

/-- C9: `export` returns exactly the `exported` field of the
`ExportResults` that `export2` computes for the same arguments with
`update` left at `false` and the no-op ledger, and it leaves the world
in the same state; the two entry points never disagree on the exported
path list. -/
theorem export_agrees_with_export2 (a : Asset) (dest : Option String)
    (fns : List String) (o : Opts) (s : St) :
    exportFn a dest fns o s =
      ((export2 a dest fns { o with update := false, dbOn := false } s).1.map
         ExpRes.exported,
       (export2 a dest fns { o with update := false, dbOn := false } s).2) := by
  unfold exportFn
  rcases h : export2 a dest fns { o with update := false, dbOn := false } s with ⟨r, s2⟩
  cases r <;> simp [Except.map]

/-- C5: with `update=false, overwrite=false, increment=false` and a
composed destination that already exists, `export2` raises the
destination-occupied `FileExistsError` and the world (filesystem and
ledger) is returned unchanged. -/
theorem collision_raises_destExists (a : Asset) (fns : List String) (o : Opts)
    (s : St) (dd fname : String)
    (h1 : ¬(o.edited = true ∧ a.hasadjustments = false))
    (h2 : fns.length ≤ 2)
    (h4 : s.fs.isdir dd = true)
    (h5 : composeFname a fns o = .ok fname)
    (hu : o.update = false) (hov : o.overwrite = false) (hin : o.increment = false)
    (hex : s.fs.pexists ⟨dd, fname⟩ = true) :
    export2 a (some dd) fns o s = (.error .destExists, s) := by
  unfold export2
  have h2' : ¬ fns.length > 2 := by omega
  simp [h1, h2', h4, h5, hu, hov, hin, hex]

/-- C5 witness. -/
theorem collision_raises_destExists_witness :
    export2 baseAsset (some dstDir) [] { increment := false } stDup
      = (.error .destExists, stDup) :=
  collision_raises_destExists baseAsset [] { increment := false } stDup dstDir "p.jpg"
    (by decide) (by decide) (by decide) (by decide) rfl rfl rfl (by decide)

/-- Projection of a JSON string-array value to its string list. -/
def strListOf : Option JValue → Option (List String)
  | some (.arr l) =>
      some (l.map fun v => match v with | .str s => s | _ => "")
  | _ => none

/-- The asset of the C4 scenario: keywords k1, k2 and person Alice. -/
def c4Asset : Asset := { baseAsset with keywords := ["k1", "k2"], persons := ["Alice"] }

/-- C4 counterexample: with `use_persons_as_keywords=true` the sidecar
keyword list is the asset's keywords followed by the sorted persons —
`["k1", "k2", "Alice"]` — not the fully sorted `["Alice", "k1", "k2"]`
the claim requires (persons are appended after the keywords, so with a
nonempty keyword set the first element is never "Alice"). -/
theorem sidecar_keywords_not_sorted_cex :
    strListOf (alGet (exiftoolJsonDict c4Asset false true []) "IPTC:Keywords")
      = some ["k1", "k2", "Alice"]
    ∧ some ["k1", "k2", "Alice"] ≠ some ["Alice", "k1", "k2"] := by
  constructor
  · decide
  · decide

/-- C4 (amended): the JSON sidecar for the C4 asset carries
`XMP:TagsList = IPTC:Keywords = ["k1", "k2", "Alice"]` (the keywords in
stored order followed by the sorted persons — equal as a set, but not
sorted) and `XMP:PersonInImage = ["Alice"]`. -/
theorem sidecar_keywords_append_order :
    strListOf (alGet (exiftoolJsonDict c4Asset false true []) "XMP:TagsList")
      = some ["k1", "k2", "Alice"]
    ∧ strListOf (alGet (exiftoolJsonDict c4Asset false true []) "IPTC:Keywords")
      = some ["k1", "k2", "Alice"]
    ∧ strListOf (alGet (exiftoolJsonDict c4Asset false true []) "XMP:PersonInImage")
      = some ["Alice"]
    ∧ List.Perm ["k1", "k2", "Alice"] ["Alice", "k1", "k2"] := by
  refine ⟨by decide, by decide, by decide, ?_⟩
  decide

/-- C2 counterexample: in copy mode (`export_as_hardlink=false`) with
`update=true`, a destination that is hardlinked to its source is
unlinked, re-copied and classified `updated` — not `skipped` as the
claim requires for both modes. -/
theorem samefile_copy_mode_updated_cex :
    (export2 baseAsset (some dstDir) [] { update := true, dbOn := true } stHardLed).1
      = .ok ⟨[dstP], [], [dstP], [], []⟩ := by
  decide

/-- C2 (amended): in update mode with an existing destination that is
the same file as the source, the materializer with
`export_as_hardlink=true` performs no file operation and classifies the
path `skipped` (regardless of source content, which does not enter the
branch); with `export_as_hardlink=false` (copy mode) it instead unlinks
and re-copies the destination and classifies it `updated`. -/
theorem samefile_materializer (a : Asset) (src dest : Pth) (ov ef db : Bool) (s : St)
    (hex : s.fs.pexists dest = true) (hsf : s.samefile dest src = true)
    (hne : src ≠ dest) (hdata : (s.dataAt src).isSome = true) :
    expPhotoFile a src dest true ov true ef db s = (.ok ⟨[], [], [], [dest], []⟩, s)
    ∧ (expPhotoFile a src dest true ov false ef db s).1
        = .ok ⟨[dest], [], [dest], [], []⟩ := by
  constructor
  · unfold expPhotoFile
    simp [hex, hsf]
  · unfold expPhotoFile
    simp only [hex, hsf, Bool.not_true, Bool.false_eq_true, false_and, and_false,
      if_false, if_true, true_and, and_true]
    obtain ⟨d, hd⟩ : ∃ d, s.dataAt src = some d := by
      cases hh : s.dataAt src
      · rw [hh] at hdata; simp at hdata
      · exact ⟨_, rfl⟩
    have hino : (s.unlink dest).dataAt src = some d := by
      rw [dataAt_unlink_other s dest src hne]
      exact hd
    simp [St.copyF, hino]

/-- C2 witness (hardlink mode skips; copy mode updates). -/
theorem samefile_materializer_witness :
    expPhotoFile baseAsset srcP dstP true false true false false stHardlinked
      = (.ok ⟨[], [], [], [dstP], []⟩, stHardlinked)
    ∧ (expPhotoFile baseAsset srcP dstP true false false false false stHardlinked).1
      = .ok ⟨[dstP], [], [dstP], [], []⟩ :=
  samefile_materializer baseAsset srcP dstP false false false stHardlinked
    (by decide) (by decide) (by decide) (by decide)

/-- C7 counterexample: an untracked destination hardlinked to (hence
byte-identical to) the source is adopted — the ledger is backfilled —
but the run (copy mode, non-exiftool) classifies it `updated` and
rewrites the file instead of `skipped` without a rewrite. -/
theorem adoption_hardlink_updated_cex :
    (export2 baseAsset (some dstDir) [] { update := true, dbOn := true } stHardlinked).1
      = .ok ⟨[dstP], [], [dstP], [], []⟩ := by
  decide

-- Congruence of the filesystem-only observations under ledger-only
-- state changes.

theorem dataAt_congr (s1 s2 : St) (h : s1.fs = s2.fs) (p : Pth) :
    s1.dataAt p = s2.dataAt p := by
  unfold St.dataAt FS.ino FS.fdata
  rw [h]

theorem pycmp_congr (s1 s2 : St) (h : s1.fs = s2.fs) (p q : Pth) :
    s1.pycmp p q = s2.pycmp p q := by
  unfold St.pycmp
  rw [dataAt_congr s1 s2 h, dataAt_congr s1 s2 h]

theorem samefile_congr (s1 s2 : St) (h : s1.fs = s2.fs) (p q : Pth) :
    s1.samefile p q = s2.samefile p q := by
  unfold St.samefile FS.ino
  rw [h]

theorem fileSigD_congr (s1 s2 : St) (h : s1.fs = s2.fs) (p : Pth) :
    s1.fileSigD p = s2.fileSigD p := by
  unfold St.fileSigD St.fileSigO
  rw [dataAt_congr s1 s2 h]

theorem fs_setUuid (s : St) (db : Bool) (p : Pth) (u : String) :
    (s.setUuid db p u).fs = s.fs := by
  unfold St.setUuid; cases db <;> simp

theorem fs_setInfo (s : St) (db : Bool) (u j : String) :
    (s.setInfo db u j).fs = s.fs := by
  unfold St.setInfo; cases db <;> simp

theorem fs_setSOrig (s : St) (db : Bool) (p : Pth) (g : Sig) :
    (s.setSOrig db p g).fs = s.fs := by
  unfold St.setSOrig; cases db <;> simp

theorem fs_setSExif (s : St) (db : Bool) (p : Pth) (g : Option Sig) :
    (s.setSExif db p g).fs = s.fs := by
  unfold St.setSExif; cases db <;> simp

theorem fs_setExifData (s : St) (db : Bool) (p : Pth) (j : Option String) :
    (s.setExifData db p j).fs = s.fs := by
  unfold St.setExifData; cases db <;> cases j <;> simp

theorem fs_ledStamp (a : Asset) (p : Pth) (db : Bool) (s : St) :
    (ledStamp a p db s).fs = s.fs := by
  unfold ledStamp
  rw [fs_setExifData, fs_setSExif, fs_setSOrig, fs_setInfo, fs_setUuid]

/-- C7 (amended): with `update=true`, non-exiftool copy mode and a real
ledger, a composed destination that exists, has no uuid entry, is
byte-identical to the source and is not hardlinked to it, is adopted:
the run backfills the ledger (uuid, info JSON, fresh original
signature, exif signature and payload reset) and classifies the path
`skipped` without touching the filesystem. -/
theorem adoption_backfills_and_skips (a : Asset) (fns : List String) (o : Opts)
    (s : St) (dd fname : String) (src : Pth)
    (hupd : o.update = true) (hpe : o.usePhotosExport = false)
    (hexif : o.exiftool = false) (hhl : o.hardlink = false) (hdb : o.dbOn = true)
    (hlv : o.livePhoto = false) (hrw : o.rawPhoto = false)
    (hsj : o.sidecarJson = false) (hsx : o.sidecarXmp = false)
    (hed : o.edited = false)
    (h2 : fns.length ≤ 2)
    (h4 : s.fs.isdir dd = true)
    (h5 : composeFname a fns o = .ok fname)
    (hpath : a.path = some src)
    (hsrcx : s.fs.pexists src = true)
    (hex : s.fs.pexists ⟨dd, fname⟩ = true)
    (huuid : alGet s.led.uuidFor ⟨dd, fname⟩ = none)
    (hcmp : s.pycmp src ⟨dd, fname⟩ = true)
    (hnsf : s.samefile ⟨dd, fname⟩ src = false) :
    (export2 a (some dd) fns o s).1 = .ok ⟨[], [], [], [⟨dd, fname⟩], []⟩
    ∧ (export2 a (some dd) fns o s).2.fs = s.fs
    ∧ alGet (export2 a (some dd) fns o s).2.led.uuidFor ⟨dd, fname⟩ = some a.uuid
    ∧ alGet (export2 a (some dd) fns o s).2.led.infoFor a.uuid = some a.jsonRepr
    ∧ alGet (export2 a (some dd) fns o s).2.led.sOrig ⟨dd, fname⟩
        = some (s.fileSigD ⟨dd, fname⟩)
    ∧ alGet (export2 a (some dd) fns o s).2.led.sExif ⟨dd, fname⟩ = some none
    ∧ alGet (export2 a (some dd) fns o s).2.led.exifData ⟨dd, fname⟩ = none := by
  have h2' : ¬ fns.length > 2 := by omega
  -- the adopted state
  set d0 : Pth := ⟨dd, fname⟩ with hd0
  have hrun : export2 a (some dd) fns o s
      = (.ok ⟨[], [], [], [d0], []⟩,
         ((ledStamp a d0 true s).setSOrig true d0 (s.fileSigD d0))) := by
    unfold export2
    simp only [hed, hupd, hpe, hexif, hhl, hdb, hlv, hrw, hsj, hsx, h2', h4, h5,
      Bool.false_eq_true, Bool.true_eq_false, false_and, and_false, if_false,
      not_false_eq_true, if_true, ite_true, ite_false, Bool.not_true, true_and,
      and_true, hpath, not_true_eq_false, hsrcx, hex, localSrc]
    simp only [← hd0]
    have hres : resolveUpd a src d0 true s = (d0, ledStamp a d0 true s) := by
      unfold resolveUpd
      simp [St.getUuid, huuid, hcmp]
    simp only [hres]
    unfold localPart livePart rawPart
    simp only [hlv, hrw, Bool.false_eq_true, false_and, if_false, ite_false]
    have hfs1 : (ledStamp a d0 true s).fs = s.fs := fs_ledStamp a d0 true s
    have hmat : expPhotoFile a src d0 o.update o.overwrite o.hardlink o.exiftool o.dbOn
        (ledStamp a d0 true s)
        = (.ok ⟨[], [], [], [d0], []⟩,
           (ledStamp a d0 true s).setSOrig true d0 (s.fileSigD d0)) := by
      unfold expPhotoFile
      have hex1 : (ledStamp a d0 true s).fs.pexists d0 = true := by rw [hfs1]; exact hex
      have hcmp1 : (ledStamp a d0 true s).pycmp src d0 = true := by
        rw [pycmp_congr _ s hfs1]; exact hcmp
      have hnsf1 : (ledStamp a d0 true s).samefile d0 src = false := by
        rw [samefile_congr _ s hfs1]; exact hnsf
      have hsig1 : (ledStamp a d0 true s).fileSigD d0 = s.fileSigD d0 :=
        fileSigD_congr _ s hfs1 d0
      simp only [hupd, hhl, hexif, hdb, hex1, hcmp1, hnsf1, hsig1,
        Bool.false_eq_true, if_false, Bool.not_true, Bool.not_false, and_true,
        true_and, and_false, if_true, not_true_eq_false, not_false_eq_true,
        ite_true, ite_false, and_self, Bool.true_eq_false, false_and]
    simp only [hmat]
    unfold sidecarPart exifStage
    simp only [hsj, hsx, hexif, Bool.false_eq_true, false_and, if_false, ite_false,
      Bool.true_eq_false, and_false, ite_true, if_true]
  rw [hrun]
  have hfs2 : ((ledStamp a d0 true s).setSOrig true d0 (s.fileSigD d0)).fs = s.fs := by
    rw [fs_setSOrig]; exact fs_ledStamp a d0 true s
  refine ⟨rfl, hfs2, ?_, ?_, ?_, ?_, ?_⟩ <;>
    simp [ledStamp, St.setSOrig, St.setUuid, St.setInfo, St.setSExif, St.setExifData,
      alGet_set_self, alGet_set_other, alGet_erase_self]

/-- C7 witness: adopting a distinct-inode byte-identical untracked
destination. -/
theorem adoption_backfills_and_skips_witness :
    (export2 baseAsset (some dstDir) [] { update := true, dbOn := true } stDup).1
      = .ok ⟨[], [], [], [dstP], []⟩ :=
  (adoption_backfills_and_skips baseAsset [] { update := true, dbOn := true } stDup
    dstDir "p.jpg" srcP rfl rfl rfl rfl rfl rfl rfl rfl rfl rfl (by decide)
    (by decide) (by decide) (by decide) (by decide) (by decide) (by decide)
    (by decide) (by decide)).1

/-- C1 counterexample: in incremental local mode a skipped identical
destination appears in `skipped` but not in `exported`, so
new/updated/skipped do not partition `exported` (the claim requires
every skipped path to appear in `exported`). -/
theorem results_partition_cex :
    (export2 baseAsset (some dstDir) [] { update := true } stDup).1
      = .ok ⟨[], [], [], [dstP], []⟩
    ∧ dstP ∉ ([] : List Pth) := by
  exact ⟨by decide, by decide⟩

/-- Every successful update-mode materialization satisfies
`exported = new ++ updated` (and contributes nothing to `exifUpd`). -/
theorem expPhotoFile_update_shape (a : Asset) (src dest : Pth) (ov hl ef db : Bool)
    (s : St) (r : ExpRes) (s2 : St)
    (h : expPhotoFile a src dest true ov hl ef db s = (.ok r, s2)) :
    r.exported = r.new ++ r.updated := by
  unfold expPhotoFile at h
  split_ifs at h
  all_goals repeat' split at h
  all_goals
    first
      | exact absurd rfl ‹¬(true = true)›
      | (rw [Prod.mk.injEq] at h
         obtain ⟨h1, h2⟩ := h
         first
           | (injection h1 with h3; subst h3; rfl)
           | cases h1)

theorem livePart_count (a : Asset) (o : Opts) (d : Pth) (acc : ExpRes) (s : St)
    (r : ExpRes) (s2 : St) (hu : o.update = true)
    (h : livePart a o d acc s = (.ok r, s2)) (p : Pth)
    (hacc : acc.exported.count p = acc.new.count p + acc.updated.count p) :
    r.exported.count p = r.new.count p + r.updated.count p := by
  unfold livePart at h
  repeat' split at h
  all_goals (rw [Prod.mk.injEq] at h; obtain ⟨h1, h2⟩ := h)
  all_goals
    first
      | (injection h1 with h3; subst h3; exact hacc)
      | (injection h1 with h3
         subst h3
         rename_i heq
         rw [hu] at heq
         have hx := expPhotoFile_update_shape _ _ _ _ _ _ _ _ _ _ heq
         simp [accAppend, List.count_append, hx, hacc]
         omega)
      | cases h1

theorem rawPart_count (a : Asset) (o : Opts) (d : Pth) (acc : ExpRes) (s : St)
    (r : ExpRes) (s2 : St) (hu : o.update = true)
    (h : rawPart a o d acc s = (.ok r, s2)) (p : Pth)
    (hacc : acc.exported.count p = acc.new.count p + acc.updated.count p) :
    r.exported.count p = r.new.count p + r.updated.count p := by
  unfold rawPart at h
  repeat' split at h
  all_goals (rw [Prod.mk.injEq] at h; obtain ⟨h1, h2⟩ := h)
  all_goals
    first
      | (injection h1 with h3; subst h3; exact hacc)
      | (injection h1 with h3
         subst h3
         rename_i heq
         rw [hu] at heq
         have hx := expPhotoFile_update_shape _ _ _ _ _ _ _ _ _ _ heq
         simp [accAppend, List.count_append, hx, hacc]
         omega)
      | cases h1

theorem localPart_count (a : Asset) (o : Opts) (src d : Pth) (s : St)
    (r : ExpRes) (s2 : St) (hu : o.update = true)
    (h : localPart a o src d s = (.ok r, s2)) (p : Pth) :
    r.exported.count p = r.new.count p + r.updated.count p := by
  unfold localPart at h
  split at h
  · rw [Prod.mk.injEq] at h
    exact absurd h.1 (by simp)
  · rename_i r1 s3 heq1
    rw [hu] at heq1
    have h1 := expPhotoFile_update_shape _ _ _ _ _ _ _ _ _ _ heq1
    split at h
    · rw [Prod.mk.injEq] at h
      exact absurd h.1 (by simp)
    · rename_i r2 s4 heq2
      have h2 := livePart_count a o d r1 s3 r2 s4 hu heq2 p
        (by simp [h1, List.count_append])
      exact rawPart_count a o d r2 s4 r s2 hu h p h2

theorem export2_ok_localPart (a : Asset) (dest : Option String) (fns : List String)
    (o : Opts) (s : St) (r : ExpRes) (s2 : St)
    (hpe : o.usePhotosExport = false)
    (h : export2 a dest fns o s = (.ok r, s2)) :
    ∃ src d s1 lr s3,
      localPart a o src d s1 = (.ok lr, s3)
      ∧ r.exported = lr.exported ∧ r.new = lr.new ∧ r.updated = lr.updated := by
  unfold export2 at h
  rw [hpe] at h
  simp only [Bool.false_eq_true, not_false_eq_true, if_true, ite_true,
    Bool.not_false] at h
  repeat' split at h
  all_goals (rw [Prod.mk.injEq] at h; obtain ⟨h1, h2⟩ := h)
  all_goals
    first
      | (injection h1 with h3
         subst h3
         rename_i xA rA sA heqL xB uB s4B heqE
         exact ⟨_, _, _, rA, sA, heqL, rfl, rfl, rfl⟩)
      | cases h1

/-- C1 (amended): for every successful `export2` run in incremental
local mode (`update=true`, `use_photos_export=false`), the `exported`
list is — up to order — exactly `new ++ updated`; skipped paths are
recorded in `skipped` only and are not part of `exported`. -/
theorem exported_perm_new_append_updated (a : Asset) (dest : Option String)
    (fns : List String) (o : Opts) (s : St) (r : ExpRes) (s2 : St)
    (hu : o.update = true) (hpe : o.usePhotosExport = false)
    (h : export2 a dest fns o s = (.ok r, s2)) :
    List.Perm r.exported (r.new ++ r.updated) := by
  obtain ⟨src, d, s1, lr, s3, hloc, he, hn, hup⟩ :=
    export2_ok_localPart a dest fns o s r s2 hpe h
  rw [List.perm_iff_count]
  intro p
  rw [he, hn, hup, List.count_append]
  exact localPart_count a o src d s1 lr s3 hu hloc p

/-- C1 witness (the stDup run: exported `[]`, new/updated empty). -/
theorem exported_perm_witness : List.Perm ([] : List Pth) ([] ++ []) :=
  exported_perm_new_append_updated baseAsset (some dstDir) [] { update := true }
    stDup ⟨[], [], [], [dstP], []⟩ stDup rfl rfl (by decide)

/-! ## C3: idempotence of update-mode runs -/

/-- Asset whose media filename collides with its own JSON sidecar. -/
def c3cexAsset : Asset := { baseAsset with filename := "p.json" }

/-- Update-mode options with the JSON sidecar enabled. -/
def c3cexOpts : Opts := { update := true, dbOn := true, sidecarJson := true }

/-- C3 counterexample: when the media file is named like its own JSON
sidecar, the sidecar write clobbers the exported media, so the second
update-mode run re-copies it: `updated ≠ []` even though nothing changed
between the runs. -/
theorem idempotence_sidecar_cex :
    (export2 c3cexAsset (some dstDir) [] c3cexOpts stSrcOnly).1
      = .ok ⟨[⟨"d", "p.json"⟩], [⟨"d", "p.json"⟩], [], [], []⟩ ∧
    (export2 c3cexAsset (some dstDir) [] c3cexOpts
        (export2 c3cexAsset (some dstDir) [] c3cexOpts stSrcOnly).2).1
      = .ok ⟨[⟨"d", "p.json"⟩], [], [⟨"d", "p.json"⟩], [], []⟩ := by
  exact ⟨by decide, by decide⟩

/-- C3 (amended): a plain update-mode local export (no companions, no
sidecars, no exiftool, live ledger) into a fresh destination is
idempotent: the first run copies and reports the path as `new`, and a
second run with nothing changed reports `new = updated = ∅` and the
previously exported path in `skipped`.  (When a sidecar or companion
write collides with the media path this fails, see the
counterexample.) -/
theorem export2_update_idempotent (a : Asset) (o : Opts) (dd : String) (src : Pth)
    (d : FData) (s0 : St)
    (hupd : o.update = true) (hpe : o.usePhotosExport = false)
    (hexif : o.exiftool = false) (hhl : o.hardlink = false) (hdb : o.dbOn = true)
    (hlv : o.livePhoto = false) (hrw : o.rawPhoto = false)
    (hsj : o.sidecarJson = false) (hsx : o.sidecarXmp = false)
    (hed : o.edited = false)
    (hdir : s0.fs.isdir dd = true)
    (hpath : a.path = some src)
    (hdata : s0.dataAt src = some d)
    (hd0 : s0.fs.pexists ⟨dd, a.filename⟩ = false)
    (hne : src ≠ ⟨dd, a.filename⟩)
    (hfresh : s0.fs.ino src ≠ some s0.nextIno) :
    ∃ s1 s2,
      export2 a (some dd) [] o s0
        = (.ok ⟨[⟨dd, a.filename⟩], [⟨dd, a.filename⟩], [], [], []⟩, s1) ∧
      export2 a (some dd) [] o s1
        = (.ok ⟨[], [], [], [⟨dd, a.filename⟩], []⟩, s2) := by
  set d0 : Pth := ⟨dd, a.filename⟩ with hd0eq
  obtain ⟨i0, hino, hfd⟩ : ∃ i0, s0.fs.ino src = some i0 ∧ s0.fs.fdata i0 = some d := by
    unfold St.dataAt at hdata
    rcases hino : s0.fs.ino src with _ | i0
    · rw [hino] at hdata; cases hdata
    · rw [hino] at hdata; exact ⟨i0, rfl, hdata⟩
  have hi0 : i0 ≠ s0.nextIno := fun he => hfresh (by rw [hino, he])
  have hsrcx : s0.fs.pexists src = true := by unfold FS.pexists; rw [hino]; rfl
  set sCopy : St :=
    { s0 with
        fs := { s0.fs with
                  names := alSet (alErase s0.fs.names d0) d0 s0.nextIno,
                  datas := alSet s0.fs.datas s0.nextIno d },
        nextIno := s0.nextIno + 1 } with hsCopy
  set s1 : St := ledStamp a d0 true sCopy with hs1
  have hcopy : s0.copyF src d0 = .ok sCopy := by
    unfold St.copyF
    rw [hdata]
  have h5 : composeFname a [] o = .ok a.filename := by
    unfold composeFname
    simp [hed]
  have hlen : ¬ (([] : List String).length > 2) := by simp
  -- first run: fresh copy
  have hmat1 : expPhotoFile a src d0 o.update o.overwrite o.hardlink o.exiftool o.dbOn s0
      = (.ok ⟨[d0], [d0], [], [], []⟩, s1) := by
    unfold expPhotoFile
    simp only [hupd, hhl, hexif, hdb, hd0, Bool.false_eq_true, Bool.true_eq_false,
      if_false, Bool.not_true, not_true_eq_false, false_and, and_false, ite_false,
      if_true, ite_true, not_false_eq_true, true_and, and_true, hcopy]
  have hrun1 : export2 a (some dd) [] o s0 = (.ok ⟨[d0], [d0], [], [], []⟩, s1) := by
    unfold export2
    simp only [hed, hupd, hpe, hexif, hhl, hdb, hlv, hrw, hsj, hsx, hdir, h5, hlen,
      hpath, hd0, hsrcx, localSrc, Bool.false_eq_true, Bool.true_eq_false,
      false_and, and_false, if_false, not_false_eq_true, if_true, ite_true,
      ite_false, Bool.not_true, true_and, and_true, not_true_eq_false]
    simp only [← hd0eq]
    unfold localPart livePart rawPart
    simp only [hlv, hrw, Bool.false_eq_true, false_and, if_false, ite_false, hmat1]
    unfold sidecarPart exifStage
    simp only [hsj, hsx, hexif, Bool.false_eq_true, false_and, if_false, ite_false,
      Bool.true_eq_false, and_false, ite_true, if_true]
  -- facts about the state after the first run
  have hfs1 : s1.fs = sCopy.fs := fs_ledStamp a d0 true sCopy
  have hdir2 : s1.fs.isdir dd = true := by
    rw [hfs1]
    exact hdir
  have hino2 : s1.fs.ino src = some i0 := by
    rw [hfs1]
    show alGet (alSet (alErase s0.fs.names d0) d0 s0.nextIno) src = some i0
    rw [alGet_set_other _ _ _ _ (fun e => hne e.symm),
        alGet_erase_other _ _ _ hne]
    exact hino
  have hsrc2 : s1.fs.pexists src = true := by
    unfold FS.pexists
    rw [hino2]
    rfl
  have hdataS : s1.dataAt src = some d := by
    unfold St.dataAt
    rw [hino2]
    show alGet (alSet s0.fs.datas s0.nextIno d) i0 = some d
    rw [alGet_set_other _ _ _ _ (fun e => hi0 e.symm)]
    exact hfd
  have hinoD : s1.fs.ino d0 = some s0.nextIno := by
    rw [hfs1]
    show alGet (alSet (alErase s0.fs.names d0) d0 s0.nextIno) d0 = some s0.nextIno
    exact alGet_set_self _ _ _
  have hpex2 : s1.fs.pexists d0 = true := by
    unfold FS.pexists
    rw [hinoD]
    rfl
  have hdataD : s1.dataAt d0 = some d := by
    unfold St.dataAt
    rw [hinoD]
    show alGet (alSet s0.fs.datas s0.nextIno d) s0.nextIno = some d
    exact alGet_set_self _ _ _
  have hcmp2 : s1.pycmp src d0 = true := by
    unfold St.pycmp
    rw [hdataS, hdataD]
    simp
  have hnsf2 : s1.samefile d0 src = false := by
    unfold St.samefile
    rw [hinoD, hino2]
    simp only []
    exact decide_eq_false (fun e => hi0 e.symm)
  have huuid2 : alGet s1.led.uuidFor d0 = some a.uuid := by
    rw [hs1]
    simp [ledStamp, St.setUuid, St.setInfo, St.setSOrig, St.setSExif, St.setExifData,
      alGet_set_self]
  have hres2 : resolveUpd a src d0 true s1 = (d0, s1) := by
    unfold resolveUpd
    simp [St.getUuid, huuid2]
  have hmat2 : expPhotoFile a src d0 o.update o.overwrite o.hardlink o.exiftool o.dbOn s1
      = (.ok ⟨[], [], [], [d0], []⟩, s1.setSOrig true d0 (s1.fileSigD d0)) := by
    unfold expPhotoFile
    simp only [hupd, hhl, hexif, hdb, hpex2, hcmp2, hnsf2, Bool.false_eq_true,
      Bool.true_eq_false, if_false, Bool.not_true, Bool.not_false, and_true,
      true_and, and_false, if_true, not_true_eq_false, not_false_eq_true,
      ite_true, ite_false, and_self, false_and]
  have hrun2 : export2 a (some dd) [] o s1
      = (.ok ⟨[], [], [], [d0], []⟩, s1.setSOrig true d0 (s1.fileSigD d0)) := by
    unfold export2
    simp only [hed, hupd, hpe, hexif, hhl, hdb, hlv, hrw, hsj, hsx, hdir2, h5, hlen,
      hpath, hpex2, hsrc2, localSrc, Bool.false_eq_true, Bool.true_eq_false,
      false_and, and_false, if_false, not_false_eq_true, if_true, ite_true,
      ite_false, Bool.not_true, true_and, and_true, not_true_eq_false]
    simp only [← hd0eq, hres2]
    unfold localPart livePart rawPart
    simp only [hlv, hrw, Bool.false_eq_true, false_and, if_false, ite_false, hmat2]
    unfold sidecarPart exifStage
    simp only [hsj, hsx, hexif, Bool.false_eq_true, false_and, if_false, ite_false,
      Bool.true_eq_false, and_false, ite_true, if_true]
  exact ⟨s1, s1.setSOrig true d0 (s1.fileSigD d0), hrun1, hrun2⟩

/-- C3 witness: a concrete fresh export followed by an unchanged re-run
skips. -/
theorem export2_update_idempotent_witness :
    ∃ s1 s2,
      export2 baseAsset (some "d") [] { update := true, dbOn := true } stSrcOnly
        = (.ok ⟨[⟨"d", "p.jpg"⟩], [⟨"d", "p.jpg"⟩], [], [], []⟩, s1) ∧
      export2 baseAsset (some "d") [] { update := true, dbOn := true } s1
        = (.ok ⟨[], [], [], [⟨"d", "p.jpg"⟩], []⟩, s2) :=
  export2_update_idempotent baseAsset { update := true, dbOn := true } "d" srcP
    ⟨[7, 7], 5⟩ stSrcOnly rfl rfl rfl rfl rfl rfl rfl rfl rfl rfl
    (by decide) rfl (by decide) (by decide) (by decide) (by decide)

/-! ## C8: parser bounds and exactness of the cached-payload comparison -/

theorem skipWs_len : ∀ l : List Char, (skipWs l).length ≤ l.length := by
  intro l
  induction l with
  | nil => simp [skipWs]
  | cons c t ih =>
      simp only [skipWs]
      split
      · simp only [List.length_cons]; omega
      · simp

theorem spanDigits_app : ∀ l : List Char, (spanDigits l).1 ++ (spanDigits l).2 = l := by
  intro l
  induction l with
  | nil => rfl
  | cons c t ih =>
      simp only [spanDigits]
      split
      · show c :: ((spanDigits t).1 ++ (spanDigits t).2) = c :: t
        rw [ih]
      · rfl

theorem signStrip_len (cs : List Char) : (signStrip cs).length ≤ cs.length := by
  match cs with
  | [] => simp [signStrip]
  | c :: t =>
      by_cases hc : c = '-' <;> simp [signStrip, hc]

theorem parseNum_len (cs : List Char) (v : JValue) (rest : List Char)
    (h : parseNum cs = some (v, rest)) : needJ v + rest.length ≤ cs.length := by
  simp only [parseNum] at h
  split at h
  · exact Option.noConfusion h
  · rename_i ds r hnc hspan
    split at h
    · exact Option.noConfusion h
    · rw [Option.some.injEq, Prod.mk.injEq] at h
      obtain ⟨hv, hr⟩ := h
      subst hv
      have hrlen : r.length = rest.length := by rw [hr]
      have hds1 : 1 ≤ ds.length := by
        cases ds with
        | nil => exact absurd rfl hnc
        | cons a b => simp
      have hlen : ds.length + r.length = (signStrip cs).length := by
        have happ := spanDigits_app (signStrip cs)
        rw [hspan] at happ
        have h2 := congrArg List.length happ
        simpa [List.length_append] using h2
      have hstr := signStrip_len cs
      simp only [needJ]
      omega

theorem parseStrF_cons (fuel : Nat) (c : Char) (t : List Char) :
    parseStrF (fuel + 1) (c :: t)
      = if c = '"' then some ([], t)
        else if c = '\\' then
          match t with
          | [] => none
          | e :: r =>
              if e = '"' then (parseStrF fuel r).map (fun (s, r') => ('"' :: s, r'))
              else if e = '\\' then (parseStrF fuel r).map (fun (s, r') => ('\\' :: s, r'))
              else if e = '/' then (parseStrF fuel r).map (fun (s, r') => ('/' :: s, r'))
              else if e = 'n' then (parseStrF fuel r).map (fun (s, r') => ('\n' :: s, r'))
              else if e = 't' then (parseStrF fuel r).map (fun (s, r') => ('\t' :: s, r'))
              else if e = 'r' then (parseStrF fuel r).map (fun (s, r') => ('\r' :: s, r'))
              else if e = 'b' then (parseStrF fuel r).map (fun (s, r') => (Char.ofNat 8 :: s, r'))
              else if e = 'f' then (parseStrF fuel r).map (fun (s, r') => (Char.ofNat 12 :: s, r'))
              else if e = 'u' then
                match r with
                | a :: b :: c2 :: d :: r2 =>
                    (match hexVal a, hexVal b, hexVal c2, hexVal d with
                     | some wa, some wb, some wc, some wd =>
                         (parseStrF fuel r2).map
                           (fun (s, r') =>
                             (Char.ofNat (wa * 4096 + wb * 256 + wc * 16 + wd) :: s, r'))
                     | _, _, _, _ => none)
                | _ => none
              else none
        else (parseStrF fuel t).map (fun (s, r') => (c :: s, r')) := rfl

theorem map_snd_eq (o : Option (List Char × List Char))
    (g : List Char × List Char → List Char × List Char)
    (hg : ∀ a b, (g (a, b)).2 = b) (s r : List Char)
    (h : o.map g = some (s, r)) : ∃ s0, o = some (s0, r) := by
  rw [Option.map_eq_some'] at h
  obtain ⟨⟨s0, r1⟩, hp, he⟩ := h
  have hr : r = r1 := by rw [← hg s0 r1, he]
  exact ⟨s0, by rw [hp, hr]⟩

theorem parseStrF_esc (fuel : Nat) (e : Char) (r0 : List Char) :
    parseStrF (fuel + 1) ('\\' :: e :: r0)
      = if e = '"' then (parseStrF fuel r0).map (fun (s, r') => ('"' :: s, r'))
        else if e = '\\' then (parseStrF fuel r0).map (fun (s, r') => ('\\' :: s, r'))
        else if e = '/' then (parseStrF fuel r0).map (fun (s, r') => ('/' :: s, r'))
        else if e = 'n' then (parseStrF fuel r0).map (fun (s, r') => ('\n' :: s, r'))
        else if e = 't' then (parseStrF fuel r0).map (fun (s, r') => ('\t' :: s, r'))
        else if e = 'r' then (parseStrF fuel r0).map (fun (s, r') => ('\r' :: s, r'))
        else if e = 'b' then (parseStrF fuel r0).map (fun (s, r') => (Char.ofNat 8 :: s, r'))
        else if e = 'f' then (parseStrF fuel r0).map (fun (s, r') => (Char.ofNat 12 :: s, r'))
        else if e = 'u' then
          match r0 with
          | a :: b :: c2 :: d :: r2 =>
              (match hexVal a, hexVal b, hexVal c2, hexVal d with
               | some wa, some wb, some wc, some wd =>
                   (parseStrF fuel r2).map
                     (fun (s, r') =>
                       (Char.ofNat (wa * 4096 + wb * 256 + wc * 16 + wd) :: s, r'))
               | _, _, _, _ => none)
          | _ => none
        else none := rfl

theorem parseStrF_len : ∀ fuel cs s r, parseStrF fuel cs = some (s, r) →
    r.length + 1 ≤ cs.length
  | 0, cs, s, r => by intro h; exact Option.noConfusion h
  | fuel + 1, [], s, r => by intro h; exact Option.noConfusion h
  | fuel + 1, c :: t, s, r => by
      intro h
      by_cases h1 : c = '"'
      · subst h1
        have h2 : some (([] : List Char), t) = some (s, r) := h
        rw [Option.some.injEq, Prod.mk.injEq] at h2
        obtain ⟨hA, hB⟩ := h2
        subst hB
        simp only [List.length_cons]
        omega
      · by_cases h2 : c = '\\'
        · subst h2
          match t, h with
          | [], h => exact Option.noConfusion h
          | e :: r0, h =>
              rw [parseStrF_esc] at h
              by_cases e1 : e = '\"'
              · rw [if_pos e1] at h
                obtain ⟨s0, hp⟩ := map_snd_eq _ _ (fun a b => rfl) s r h
                have hlen := parseStrF_len fuel _ _ _ hp
                simp only [List.length_cons]
                omega
              · rw [if_neg e1] at h
                by_cases e2 : e = '\\'
                · rw [if_pos e2] at h
                  obtain ⟨s0, hp⟩ := map_snd_eq _ _ (fun a b => rfl) s r h
                  have hlen := parseStrF_len fuel _ _ _ hp
                  simp only [List.length_cons]
                  omega
                · rw [if_neg e2] at h
                  by_cases e3 : e = '/'
                  · rw [if_pos e3] at h
                    obtain ⟨s0, hp⟩ := map_snd_eq _ _ (fun a b => rfl) s r h
                    have hlen := parseStrF_len fuel _ _ _ hp
                    simp only [List.length_cons]
                    omega
                  · rw [if_neg e3] at h
                    by_cases e4 : e = 'n'
                    · rw [if_pos e4] at h
                      obtain ⟨s0, hp⟩ := map_snd_eq _ _ (fun a b => rfl) s r h
                      have hlen := parseStrF_len fuel _ _ _ hp
                      simp only [List.length_cons]
                      omega
                    · rw [if_neg e4] at h
                      by_cases e5 : e = 't'
                      · rw [if_pos e5] at h
                        obtain ⟨s0, hp⟩ := map_snd_eq _ _ (fun a b => rfl) s r h
                        have hlen := parseStrF_len fuel _ _ _ hp
                        simp only [List.length_cons]
                        omega
                      · rw [if_neg e5] at h
                        by_cases e6 : e = 'r'
                        · rw [if_pos e6] at h
                          obtain ⟨s0, hp⟩ := map_snd_eq _ _ (fun a b => rfl) s r h
                          have hlen := parseStrF_len fuel _ _ _ hp
                          simp only [List.length_cons]
                          omega
                        · rw [if_neg e6] at h
                          by_cases e7 : e = 'b'
                          · rw [if_pos e7] at h
                            obtain ⟨s0, hp⟩ := map_snd_eq _ _ (fun a b => rfl) s r h
                            have hlen := parseStrF_len fuel _ _ _ hp
                            simp only [List.length_cons]
                            omega
                          · rw [if_neg e7] at h
                            by_cases e8 : e = 'f'
                            · rw [if_pos e8] at h
                              obtain ⟨s0, hp⟩ := map_snd_eq _ _ (fun a b => rfl) s r h
                              have hlen := parseStrF_len fuel _ _ _ hp
                              simp only [List.length_cons]
                              omega
                            · rw [if_neg e8] at h
                              by_cases e9 : e = 'u'
                              · rw [if_pos e9] at h
                                match r0, h with
                                | [], h => exact Option.noConfusion h
                                | [a], h => exact Option.noConfusion h
                                | [a, b], h => exact Option.noConfusion h
                                | [a, b, c2], h => exact Option.noConfusion h
                                | a :: b :: c2 :: d :: r2, h =>
                                    replace h :
                                        (match hexVal a, hexVal b, hexVal c2, hexVal d with
                                         | some wa, some wb, some wc, some wd =>
                                             (parseStrF fuel r2).map
                                               (fun (s, r') =>
                                                 (Char.ofNat (wa * 4096 + wb * 256 + wc * 16 + wd) :: s, r'))
                                         | _, _, _, _ => none) = some (s, r) := h
                                    rcases hA : hexVal a with _ | wa <;>
                                      rcases hB : hexVal b with _ | wb <;>
                                        rcases hC : hexVal c2 with _ | wc <;>
                                          rcases hD : hexVal d with _ | wd <;>
                                            rw [hA, hB, hC, hD] at h <;>
                                            first
                                              | exact Option.noConfusion h
                                              | (obtain ⟨s0, hp⟩ := map_snd_eq _ _ (fun x y => rfl) s r h
                                                 have hlen := parseStrF_len fuel _ _ _ hp
                                                 simp only [List.length_cons]
                                                 omega)
                              · rw [if_neg e9] at h
                                exact Option.noConfusion h
        · rw [parseStrF_cons, if_neg h1, if_neg h2] at h
          obtain ⟨s0, hp⟩ := map_snd_eq _ _ (fun a b => rfl) s r h
          have hlen := parseStrF_len fuel _ _ _ hp
          simp only [List.length_cons]
          omega

theorem parseStrBody_len (cs s r : List Char) (h : parseStrBody cs = some (s, r)) :
    r.length + 1 ≤ cs.length :=
  parseStrF_len _ _ _ _ h

theorem needO_insField : ∀ (k : String) (v : JValue) (l : List (String × JValue)),
    needO (insField k v l) ≤ 1 + needJ v + needO l := by
  intro k v l
  induction l with
  | nil => simp [insField, needO]
  | cons kv t ih =>
      obtain ⟨k0, v0⟩ := kv
      simp only [insField]
      split
      · simp only [needO]; omega
      · split
        · simp only [needO]; omega
        · simp only [needO] at ih ⊢; omega

mutual

theorem parseVal_needJ : ∀ fuel cs v rest, parseVal fuel cs = some (v, rest) →
    needJ v + rest.length ≤ cs.length
  | 0, cs, v, rest => by intro h; simp [parseVal] at h
  | fuel + 1, cs, v, rest => by
      intro h
      have hsk0 := skipWs_len cs
      simp only [parseVal] at h
      split at h
      · exact Option.noConfusion h
      · rename_i c t hsk
        rw [hsk] at hsk0
        simp only [List.length_cons] at hsk0
        split at h
        · rw [Option.map_eq_some'] at h
          obtain ⟨⟨s0, r0⟩, hp, he⟩ := h
          rw [Prod.mk.injEq] at he
          obtain ⟨hv, hr⟩ := he
          subst hv
          subst hr
          have hlen := parseStrBody_len t s0 r0 hp
          simp only [needJ]
          omega
        · split at h
          · -- array
            split at h
            · rename_i hsk2
              split at h
              · rename_i vs r hpe
                rw [Option.some.injEq, Prod.mk.injEq] at h
                obtain ⟨hv, hr⟩ := h
                subst hv
                subst hr
                have hlen := parseElems_needA fuel [] vs _ hpe
                simp only [needJ, List.length_nil] at hlen ⊢
                omega
              · cases h
            · rename_i d r0 hsk2
              have hsk2l := skipWs_len t
              rw [hsk2] at hsk2l
              simp only [List.length_cons] at hsk2l
              split at h
              · rw [Option.some.injEq, Prod.mk.injEq] at h
                obtain ⟨hv, hr⟩ := h
                subst hv
                subst hr
                simp only [needJ, needA]
                omega
              · split at h
                · rename_i vs r hpe
                  rw [Option.some.injEq, Prod.mk.injEq] at h
                  obtain ⟨hv, hr⟩ := h
                  subst hv
                  subst hr
                  have hlen := parseElems_needA fuel (d :: r0) vs _ hpe
                  simp only [needJ, List.length_cons] at hlen ⊢
                  omega
                · cases h
          · split at h
            · -- object
              split at h
              · rename_i hsk2
                split at h
                · rename_i fs r hpf
                  rw [Option.some.injEq, Prod.mk.injEq] at h
                  obtain ⟨hv, hr⟩ := h
                  subst hv
                  subst hr
                  have hlen := parseFields_needO fuel [] fs _ hpf
                  simp only [needJ, List.length_nil] at hlen ⊢
                  omega
                · cases h
              · rename_i d r0 hsk2
                have hsk2l := skipWs_len t
                rw [hsk2] at hsk2l
                simp only [List.length_cons] at hsk2l
                split at h
                · rw [Option.some.injEq, Prod.mk.injEq] at h
                  obtain ⟨hv, hr⟩ := h
                  subst hv
                  subst hr
                  simp only [needJ, needO]
                  omega
                · split at h
                  · rename_i fs r hpf
                    rw [Option.some.injEq, Prod.mk.injEq] at h
                    obtain ⟨hv, hr⟩ := h
                    subst hv
                    subst hr
                    have hlen := parseFields_needO fuel (d :: r0) fs _ hpf
                    simp only [needJ, List.length_cons] at hlen ⊢
                    omega
                  · cases h
            · split at h
              · rw [Option.some.injEq, Prod.mk.injEq] at h
                obtain ⟨hv, hr⟩ := h
                subst hv
                subst hr
                simp only [needJ, List.length_drop]
                omega
              · split at h
                · rw [Option.some.injEq, Prod.mk.injEq] at h
                  obtain ⟨hv, hr⟩ := h
                  subst hv
                  subst hr
                  simp only [needJ, List.length_drop]
                  omega
                · split at h
                  · rw [Option.some.injEq, Prod.mk.injEq] at h
                    obtain ⟨hv, hr⟩ := h
                    subst hv
                    subst hr
                    simp only [needJ, List.length_drop]
                    omega
                  · have hlen := parseNum_len (c :: t) v rest h
                    simp only [List.length_cons] at hlen
                    omega

theorem parseElems_needA : ∀ fuel cs vs rest, parseElems fuel cs = some (vs, rest) →
    needA vs + rest.length ≤ cs.length
  | 0, cs, vs, rest => by intro h; simp [parseElems] at h
  | fuel + 1, cs, vs, rest => by
      intro h
      simp only [parseElems] at h
      split at h
      · rename_i v0 rest0 hpv
        have hv0 := parseVal_needJ fuel cs v0 rest0 hpv
        split at h
        · cases h
        · rename_i d r2 hsk
          have hskl := skipWs_len rest0
          rw [hsk] at hskl
          simp only [List.length_cons] at hskl
          split at h
          · split at h
            · rename_i vs2 r3 hpe
              rw [Option.some.injEq, Prod.mk.injEq] at h
              obtain ⟨hv, hr⟩ := h
              subst hv
              subst hr
              have hlen := parseElems_needA fuel r2 vs2 _ hpe
              simp only [needA]
              omega
            · cases h
          · split at h
            · rw [Option.some.injEq, Prod.mk.injEq] at h
              obtain ⟨hv, hr⟩ := h
              subst hv
              subst hr
              simp only [needA]
              omega
            · cases h
      · cases h

theorem parseFields_needO : ∀ fuel cs fs rest, parseFields fuel cs = some (fs, rest) →
    needO fs + rest.length ≤ cs.length
  | 0, cs, fs, rest => by intro h; simp [parseFields] at h
  | fuel + 1, cs, fs, rest => by
      intro h
      have hsk0 := skipWs_len cs
      simp only [parseFields] at h
      split at h
      · cases h
      · rename_i c t hsk
        rw [hsk] at hsk0
        simp only [List.length_cons] at hsk0
        split at h
        · split at h
          · rename_i kcs r1 hps
            have hr1 := parseStrBody_len t kcs r1 hps
            split at h
            · cases h
            · rename_i d1 r2 hsk1
              have hskl1 := skipWs_len r1
              rw [hsk1] at hskl1
              simp only [List.length_cons] at hskl1
              split at h
              · split at h
                · rename_i v r3 hpv
                  have hv := parseVal_needJ fuel r2 v r3 hpv
                  split at h
                  · cases h
                  · rename_i d2 r4 hsk2
                    have hskl2 := skipWs_len r3
                    rw [hsk2] at hskl2
                    simp only [List.length_cons] at hskl2
                    split at h
                    · split at h
                      · rename_i fs2 r5 hpf
                        rw [Option.some.injEq, Prod.mk.injEq] at h
                        obtain ⟨hv2, hr2⟩ := h
                        subst hv2
                        subst hr2
                        have hlen := parseFields_needO fuel r4 fs2 _ hpf
                        have hins := needO_insField ⟨kcs⟩ v fs2
                        omega
                      · cases h
                    · split at h
                      · rw [Option.some.injEq, Prod.mk.injEq] at h
                        obtain ⟨hv2, hr2⟩ := h
                        subst hv2
                        subst hr2
                        simp only [needO]
                        omega
                      · cases h
                · cases h
              · cases h
          · cases h
        · cases h

end

mutual

theorem beqJF_sound : ∀ fuel a b, beqJF fuel a b = true → a = b
  | 0, a, b => by intro h; simp [beqJF] at h
  | fuel + 1, a, b => by
      intro h
      cases a <;> cases b <;>
        first
          | rfl
          | (simp only [beqJF, decide_eq_true_eq] at h; rw [h])
          | (exact congrArg JValue.arr (beqArrF_sound fuel _ _ h))
          | (exact congrArg JValue.obj (beqObjF_sound fuel _ _ h))
          | exact Bool.noConfusion h

theorem beqArrF_sound : ∀ fuel a b, beqArrF fuel a b = true → a = b
  | 0, a, b => by
      intro h
      match a, b with
      | [], [] => rfl
      | [], x :: u => exact Bool.noConfusion h
      | x :: t, [] => exact Bool.noConfusion h
      | x :: t, y :: u => exact Bool.noConfusion h
  | fuel + 1, a, b => by
      intro h
      match a, b with
      | [], [] => rfl
      | [], y :: u => exact Bool.noConfusion h
      | x :: t, [] => exact Bool.noConfusion h
      | x :: t, y :: u =>
          simp only [beqArrF, Bool.and_eq_true] at h
          rw [beqJF_sound fuel x y h.1, beqArrF_sound fuel t u h.2]

theorem beqObjF_sound : ∀ fuel a b, beqObjF fuel a b = true → a = b
  | 0, a, b => by
      intro h
      match a, b with
      | [], [] => rfl
      | [], x :: u => exact Bool.noConfusion h
      | x :: t, [] => exact Bool.noConfusion h
      | x :: t, y :: u => exact Bool.noConfusion h
  | fuel + 1, a, b => by
      intro h
      match a, b with
      | [], [] => rfl
      | [], y :: u => exact Bool.noConfusion h
      | (k, x) :: t, [] => exact Bool.noConfusion h
      | (k, x) :: t, (k', y) :: u =>
          simp only [beqObjF, Bool.and_eq_true, decide_eq_true_eq] at h
          rw [h.1.1, beqJF_sound fuel x y h.1.2, beqObjF_sound fuel t u h.2]

end

theorem loadsIndex0_needJ (s : String) (ov : JValue) (h : loadsIndex0 s = some ov) :
    needJ ov ≤ 2 + s.toList.length := by
  simp only [loadsIndex0] at h
  split at h
  · rename_i v rest hp
    have hb := parseVal_needJ _ _ _ _ hp
    split at h
    · simp only [pyIndex0] at h
      split at h
      · rename_i x xs
        rw [Option.some.injEq] at h
        subst h
        simp only [needJ, needA] at hb ⊢
        omega
      · split at h
        · rw [Option.some.injEq] at h
          subst h
          simp only [needJ]
          omega
        · cases h
      · cases h
    · cases h
  · cases h

/-- Top-level element count of a parsed JSON document (used only to
exhibit that two parsed documents differ). -/
def jLen : JValue → Nat
  | .arr l => l.length
  | _ => 0

/-- Options for the exif-embedding scenario: update mode with exiftool
and a live ledger. -/
def c8o : Opts := { update := true, exiftool := true, dbOn := true }

/-- The freshly recomputed sidecar payload for the fixture asset. -/
def c8fresh : String :=
  exiftoolJsonSidecar baseAsset c8o.albumsKw c8o.personsKw c8o.keywordTemplate

/-- A cached payload that differs from the fresh one as a JSON document
(an extra top-level element) while sharing its first element. -/
def c8stored : String :=
  jdump (.arr [.obj (exiftoolJsonDict baseAsset c8o.albumsKw c8o.personsKw c8o.keywordTemplate),
               .num 2])

/-- World where the destination exists and the ledger caches `c8stored`
for it. -/
def stC8x : St :=
  { stDup with led := { led0 with exifData := [(dstP, c8stored)] } }

/-- C8 counterexample: the cached payload is not deeply equal to the
fresh payload as parsed JSON (their top-level arrays differ in length),
yet embedding is skipped — the engine only compares the first parsed
elements. -/
theorem exif_skip_shallow_cex :
    stC8x.getExifData true dstP = some c8stored ∧
    ((parseVal (c8stored.toList.length + 1) c8stored.toList).map (fun p => jLen p.1)
      ≠ (parseVal (c8fresh.toList.length + 1) c8fresh.toList).map (fun p => jLen p.1)) ∧
    exifStep baseAsset c8o dstP [] stC8x = (.ok [], stC8x) := by
  refine ⟨rfl, by decide, by decide⟩

/-- C8 (amended): when a cached payload exists and both it and the
fresh payload parse, embedding is skipped (no write, no
`exif_updated` entry, state unchanged) exactly when the FIRST parsed
elements `json.loads(...)[0]` coincide; whole-document equality is not
what is compared.  The fuel of the embedded comparison is exact
(`parseVal_needJ`), so the skip test is genuine structural equality of
the first elements. -/
theorem exifStep_first_element_rule (a : Asset) (o : Opts) (f : Pth) (acc : List Pth)
    (s : St) (old : String) (ov cv : JValue)
    (hG : s.getExifData o.dbOn f = some old)
    (hO : loadsIndex0 old = some ov)
    (hC : loadsIndex0 (exiftoolJsonSidecar a o.albumsKw o.personsKw o.keywordTemplate)
      = some cv) :
    (ov = cv → exifStep a o f acc s = (.ok acc, s)) ∧
    (ov ≠ cv → exifStep a o f acc s = writeExifTo a o f acc s) := by
  have hred : exifStep a o f acc s
      = if beqJs old ov cv then (.ok acc, s) else writeExifTo a o f acc s := by
    simp only [exifStep, hG, hO, hC]
  constructor
  · intro he
    subst he
    have hcond : beqJs old ov ov = true :=
      beqJF_refl ov (2 + old.toList.length) (loadsIndex0_needJ old ov hO)
    rw [hred, if_pos hcond]
  · intro hne
    rw [hred, if_neg (fun hb : beqJs old ov cv = true =>
      hne (beqJF_sound (2 + old.toList.length) ov cv hb))]

/-- The parsed first element of the fixture payloads. -/
def c8ov : JValue := (loadsIndex0 c8fresh).getD .null

/-- World where the cached payload equals the fresh payload. -/
def stC8w : St :=
  { stDup with led := { led0 with exifData := [(dstP, c8fresh)] } }

/-- C8 witness: with the cache holding exactly the fresh payload, the
first elements coincide and embedding is skipped. -/
theorem exifStep_first_element_rule_witness :
    exifStep baseAsset c8o dstP [] stC8w = (.ok [], stC8w) :=
  (exifStep_first_element_rule baseAsset c8o dstP [] stC8w c8fresh c8ov c8ov
    rfl rfl rfl).1 rfl

/-- `c` is the stem of some existing file in `dir`. -/
def takenBy (fs : FS) (dir : String) (c : String) : Prop :=
  ∃ nm ∈ fs.entriesIn dir, nameStem nm = c

instance (fs : FS) (dir c : String) : Decidable (takenBy fs dir c) :=
  inferInstanceAs (Decidable (∃ nm ∈ fs.entriesIn dir, nameStem nm = c))

/-- Value of a decimal digit string. -/
def digitsVal (l : List Char) : Nat :=
  l.foldl (fun acc c => acc * 10 + (c.toNat - 48)) 0

theorem digitsVal_app (xs : List Char) (c : Char) :
    digitsVal (xs ++ [c]) = digitsVal xs * 10 + (c.toNat - 48) := by
  unfold digitsVal
  rw [List.foldl_append]
  rfl

theorem digit_char_toNat (d : Nat) (hd : d < 10) :
    (Char.ofNat (48 + d)).toNat = 48 + d := by
  interval_cases d <;> decide

theorem natDigsF_val : ∀ fuel n, n ≤ fuel → digitsVal (natDigsF fuel n) = n := by
  intro fuel
  induction fuel with
  | zero =>
      intro n hn
      have h0 : n = 0 := by omega
      subst h0
      rfl
  | succ f ih =>
      intro n hn
      match n with
      | 0 => rfl
      | m + 1 =>
          rw [show natDigsF (f + 1) (m + 1)
                = natDigsF f ((m + 1) / 10) ++ [Char.ofNat (48 + (m + 1) % 10)] from rfl,
             digitsVal_app, ih ((m + 1) / 10) (by omega),
             digit_char_toNat ((m + 1) % 10) (by omega)]
          omega

theorem natStr_val (n : Nat) : digitsVal (natStr n).toList = n := by
  by_cases h : n = 0
  · subst h; rfl
  · rw [show natStr n = ⟨natDigsF n n⟩ from by simp [natStr, h]]
    exact natDigsF_val n n (le_refl n)

theorem strToList_append (a b : String) :
    (a ++ b).toList = a.toList ++ b.toList := rfl

theorem candName_inj (stem : String) (a b : Nat)
    (h : candName stem a = candName stem b) : a = b := by
  have h2 := congrArg String.toList h
  simp only [candName, strToList_append, List.append_assoc] at h2
  have h3 := List.append_cancel_left h2
  have h4 := List.append_cancel_left h3
  have h5 := List.append_cancel_right h4
  have h6 := congrArg digitsVal h5
  rw [natStr_val, natStr_val] at h6
  exact h6

theorem contains_iff_str (l : List String) (a : String) :
    l.contains a = true ↔ a ∈ l := by
  show List.elem a l = true ↔ a ∈ l
  exact List.elem_iff

theorem findFreeAux_spec (stem : String) (stems : List String) :
    ∀ fuel n, (∃ k, k ≤ fuel ∧ candName stem (n + k) ∉ stems) →
      ∃ k, k ≤ fuel ∧
        findFreeAux stem stems fuel n = candName stem (n + k) ∧
        candName stem (n + k) ∉ stems ∧
        ∀ j, j < k → candName stem (n + j) ∈ stems := by
  intro fuel
  induction fuel with
  | zero =>
      intro n h
      obtain ⟨k, hk, hfree⟩ := h
      have h0 : k = 0 := by omega
      subst h0
      exact ⟨0, le_refl 0, rfl, hfree, fun j hj => absurd hj (by omega)⟩
  | succ f ih =>
      intro n h
      by_cases hc : candName stem n ∈ stems
      · have hstep : findFreeAux stem stems (f + 1) n = findFreeAux stem stems f (n + 1) := by
          simp only [findFreeAux]
          rw [if_pos ((contains_iff_str stems (candName stem n)).2 hc)]
        obtain ⟨k0, hk0, hfree0⟩ := h
        have hk0ne : k0 ≠ 0 := by
          intro h0
          subst h0
          exact hfree0 hc
        obtain ⟨k, hk, heq, hfree, hmin⟩ := ih (n + 1)
          ⟨k0 - 1, by omega, by
            have he : n + 1 + (k0 - 1) = n + k0 := by omega
            rw [he]; exact hfree0⟩
        have harith : n + 1 + k = n + (k + 1) := by omega
        refine ⟨k + 1, by omega, ?_, ?_, ?_⟩
        · rw [hstep, heq, harith]
        · rw [← harith]; exact hfree
        · intro j hj
          match j with
          | 0 => exact hc
          | j' + 1 =>
              have ha2 : n + 1 + j' = n + (j' + 1) := by omega
              rw [← ha2]
              exact hmin j' (by omega)
      · have hstep : findFreeAux stem stems (f + 1) n = candName stem n := by
          simp only [findFreeAux]
          rw [if_neg (fun hcon => hc ((contains_iff_str stems (candName stem n)).1 hcon))]
        exact ⟨0, by omega, hstep, hc, fun j hj => absurd hj (by omega)⟩

theorem exists_free (stem : String) (stems : List String) :
    ∃ k, k ≤ stems.length + 1 ∧ candName stem (1 + k) ∉ stems := by
  by_contra hall
  push_neg at hall
  have hsub : ∀ x ∈ (List.range (stems.length + 2)).map (fun k => candName stem (1 + k)),
      x ∈ stems := by
    intro x hx
    simp only [List.mem_map, List.mem_range] at hx
    obtain ⟨k, hk, rfl⟩ := hx
    exact hall k (by omega)
  have hnd : ((List.range (stems.length + 2)).map (fun k => candName stem (1 + k))).Nodup := by
    apply List.Nodup.map_on ?inj (List.nodup_range _)
    intro x _ y _ hxy
    have := candName_inj stem (1 + x) (1 + y) hxy
    omega
  have hsp := List.Nodup.subperm hnd hsub
  have hle := hsp.length_le
  simp only [List.length_map, List.length_range] at hle
  omega

theorem findFree_spec (stem : String) (stems : List String) :
    (stem ∉ stems → findFree stem stems = stem) ∧
    (stem ∈ stems → ∃ n, 1 ≤ n ∧
        findFree stem stems = candName stem n ∧
        candName stem n ∉ stems ∧
        ∀ m, 1 ≤ m → m < n → candName stem m ∈ stems) := by
  constructor
  · intro h
    unfold findFree
    rw [if_neg (fun hcon => h ((contains_iff_str stems stem).1 hcon))]
  · intro h
    have hstep : findFree stem stems = findFreeAux stem stems (stems.length + 1) 1 := by
      unfold findFree
      rw [if_pos ((contains_iff_str stems stem).2 h)]
    obtain ⟨k0, hk0, hfree0⟩ := exists_free stem stems
    obtain ⟨k, hk, heq, hfree, hmin⟩ :=
      findFreeAux_spec stem stems (stems.length + 1) 1 ⟨k0, hk0, hfree0⟩
    refine ⟨1 + k, by omega, by rw [hstep, heq], hfree, ?_⟩
    intro m hm1 hmn
    have := hmin (m - 1) (by omega)
    have h2 : 1 + (m - 1) = m := by omega
    rwa [h2] at this

theorem isPrefixOf_of_app : ∀ (l₁ l₂ t : List Char), l₁ ++ t = l₂ →
    l₁.isPrefixOf l₂ = true := by
  intro l₁
  induction l₁ with
  | nil => intro l₂ t h; cases l₂ <;> rfl
  | cons a as ih =>
      intro l₂ t h
      subst h
      simp only [List.cons_append, List.isPrefixOf, List.append_eq]
      rw [ih (as ++ t) t rfl]
      simp

theorem headq_of_app (l₁ l₂ t : List Char) (h : l₁ ++ t = l₂) (hne : l₁ ≠ []) :
    l₂.head? = l₁.head? := by
  cases l₁ with
  | nil => exact absurd rfl hne
  | cons a as => subst h; rfl

theorem nameStem_app (n : String) : ∃ t, (nameStem n).toList ++ t = n.toList := by
  simp only [nameStem]
  split
  · split
    · exact ⟨n.toList.drop _, List.take_append_drop _ n.toList⟩
    · exact ⟨[], List.append_nil _⟩
  · exact ⟨[], List.append_nil _⟩

theorem nameStem_ne_nil (n : String) (h : n.toList ≠ []) : (nameStem n).toList ≠ [] := by
  simp only [nameStem]
  split
  · rename_i i heq
    split
    · rename_i hcond
      cases hn : n.toList with
      | nil => exact absurd hn h
      | cons c t =>
          obtain ⟨j, rfl⟩ : ∃ j, i = j + 1 := ⟨i - 1, by omega⟩
          simp
    · exact h
  · exact h

theorem fnmatchF_star : ∀ (n : List Char) (fuel : Nat), n.length + 2 ≤ fuel →
    fnmatchF fuel ['*'] n = true := by
  intro n
  induction n with
  | nil =>
      intro fuel hf
      obtain ⟨f, rfl⟩ : ∃ f, fuel = f + 2 := ⟨fuel - 2, by omega⟩
      rfl
  | cons c nt ih =>
      intro fuel hf
      obtain ⟨g, rfl⟩ : ∃ g, fuel = g + 2 := ⟨fuel - 2, by omega⟩
      have h1 : fnmatchF (g + 2) ['*'] (c :: nt)
          = (fnmatchF (g + 1) [] (c :: nt) || fnmatchF (g + 1) ['*'] nt) := rfl
      rw [h1, ih (g + 1) (by simp only [List.length_cons] at hf ⊢; omega)]
      simp

theorem fnmatchF_lit_nil (fuel : Nat) (p : Char) (ps : List Char) (hp : p ≠ '*') :
    fnmatchF (fuel + 1) (p :: ps) [] = false := by
  simp only [fnmatchF]
  rw [if_neg hp]
  by_cases h2 : p = '?'
  · rw [if_pos h2]
  · rw [if_neg h2]
    by_cases h3 : p = '['
    · rw [if_pos h3]
      split <;> rfl
    · rw [if_neg h3]

theorem fnmatchF_lit_cons (fuel : Nat) (p : Char) (ps : List Char) (c : Char)
    (nt : List Char) (h1 : p ≠ '*') (h2 : p ≠ '?') (h3 : p ≠ '[') :
    fnmatchF (fuel + 1) (p :: ps) (c :: nt) = (decide (p = c) && fnmatchF fuel ps nt) := by
  simp only [fnmatchF]
  rw [if_neg h1, if_neg h2, if_neg h3]

theorem fnmatchF_clean : ∀ (ps n : List Char) (fuel : Nat),
    (∀ c ∈ ps, c ≠ '*' ∧ c ≠ '?' ∧ c ≠ '[') →
    ps.length + n.length + 2 ≤ fuel →
    fnmatchF fuel (ps ++ ['*']) n = ps.isPrefixOf n := by
  intro ps
  induction ps with
  | nil =>
      intro n fuel hc hf
      simp only [List.nil_append]
      rw [fnmatchF_star n fuel (by simp only [List.length_nil] at hf; omega)]
      cases n <;> rfl
  | cons p pt ih =>
      intro n fuel hc hf
      obtain ⟨f, rfl⟩ : ∃ f, fuel = f + 1 := ⟨fuel - 1, by omega⟩
      obtain ⟨hp1, hp2, hp3⟩ := hc p (by simp)
      cases n with
      | nil =>
          rw [show (p :: pt) ++ ['*'] = p :: (pt ++ ['*']) from rfl,
             fnmatchF_lit_nil f p (pt ++ ['*']) hp1]
          rfl
      | cons c nt =>
          rw [show (p :: pt) ++ ['*'] = p :: (pt ++ ['*']) from rfl,
             fnmatchF_lit_cons f p (pt ++ ['*']) c nt hp1 hp2 hp3,
             ih nt f (fun x hx => hc x (by simp [hx]))
               (by simp only [List.length_cons] at hf ⊢; omega)]
          show _ = (p == c && pt.isPrefixOf nt)
          by_cases hpc : p = c
          · subst hpc
            simp
          · simp [hpc]

theorem globMatch_clean (s nm : String)
    (hsne : s.toList ≠ [])
    (hsh : s.toList.head? ≠ some '.')
    (hnh : nm.toList.head? ≠ some '.')
    (hcl : ∀ c ∈ s.toList, c ≠ '*' ∧ c ≠ '?' ∧ c ≠ '[')
    (hpre : ∃ t, s.toList ++ t = nm.toList) :
    globMatch (s ++ "*") nm = true := by
  have hpat : (s ++ "*").toList = s.toList ++ ['*'] := strToList_append s "*"
  have hfn : fnmatchF (fnFuel (s ++ "*").toList nm.toList) (s ++ "*").toList nm.toList
      = true := by
    rw [hpat, fnmatchF_clean s.toList nm.toList _ hcl
      (by simp only [fnFuel, List.length_append, List.length_cons, List.length_nil]; omega)]
    obtain ⟨t, ht⟩ := hpre
    exact isPrefixOf_of_app _ _ t ht
  unfold globMatch
  split
  · exact hfn
  · simp_all
  · exact hfn

theorem mem_stems_iff (fs : FS) (d : Pth) (c : String)
    (hsne : d.stemS.toList ≠ [])
    (hsh : d.stemS.toList.head? ≠ some '.')
    (hcl : ∀ ch ∈ d.stemS.toList, ch ≠ '*' ∧ ch ≠ '?' ∧ ch ≠ '[')
    (hpre : ∃ t, d.stemS.toList ++ t = c.toList) :
    c ∈ (fs.globIn d.par (d.stemS ++ "*")).map (fun p => nameStem p.nm)
      ↔ takenBy fs d.par c := by
  unfold FS.globIn
  rw [List.map_map]
  constructor
  · intro hc
    rw [List.mem_map] at hc
    obtain ⟨nm, hnm, hstem⟩ := hc
    rw [List.mem_filter] at hnm
    exact ⟨nm, hnm.1, hstem⟩
  · rintro ⟨nm, hmem, rfl⟩
    rw [List.mem_map]
    refine ⟨nm, ?_, rfl⟩
    rw [List.mem_filter]
    refine ⟨hmem, ?_⟩
    have hpre2 : ∃ t, d.stemS.toList ++ t = nm.toList := by
      obtain ⟨t1, ht1⟩ := hpre
      obtain ⟨t2, ht2⟩ := nameStem_app nm
      exact ⟨t1 ++ t2, by rw [← List.append_assoc, ht1, ht2]⟩
    have hnh : nm.toList.head? ≠ some '.' := by
      intro hh
      have hne : nm.toList ≠ [] := by intro h0; rw [h0] at hh; cases hh
      have hns : (nameStem nm).toList ≠ [] := nameStem_ne_nil nm hne
      obtain ⟨t2, ht2⟩ := nameStem_app nm
      have h2 := headq_of_app _ _ _ ht2 hns
      obtain ⟨t1, ht1⟩ := hpre
      have h3 := headq_of_app _ _ _ ht1 hsne
      apply hsh
      rw [← h3, ← h2, hh]
    exact globMatch_clean _ _ hsne hsh hnh hcl hpre2

/-- C6 (amended): for a destination whose stem is nonempty, not
dot-initial and free of glob metacharacters, the resolver keeps the name
when no existing file in the directory has the same stem, and otherwise
appends `" (n)"` for the smallest `n ≥ 1` whose stem no existing file
carries, comparing stems only.  (For stems containing `*`, `?` or `[`
the glob scan misses files and the guarantee fails, see the
counterexample.) -/
theorem incrementStem_least_free (fs : FS) (d : Pth)
    (h1 : d.stemS.toList ≠ [])
    (h2 : d.stemS.toList.head? ≠ some '.')
    (h3 : ∀ ch ∈ d.stemS.toList, ch ≠ '*' ∧ ch ≠ '?' ∧ ch ≠ '[') :
    (¬ takenBy fs d.par d.stemS →
        incrementStem fs d = ⟨d.par, d.stemS ++ d.suffixS⟩) ∧
    (takenBy fs d.par d.stemS →
        ∃ n, 1 ≤ n ∧
          incrementStem fs d = ⟨d.par, candName d.stemS n ++ d.suffixS⟩ ∧
          ¬ takenBy fs d.par (candName d.stemS n) ∧
          ∀ m, 1 ≤ m → m < n → takenBy fs d.par (candName d.stemS m)) := by
  have hinc : incrementStem fs d
      = ⟨d.par, findFree d.stemS
          ((fs.globIn d.par (d.stemS ++ "*")).map fun p => nameStem p.nm) ++ d.suffixS⟩ := rfl
  have hiffStem := mem_stems_iff fs d d.stemS h1 h2 h3 ⟨[], List.append_nil _⟩
  have hiffCand : ∀ k,
      (candName d.stemS k ∈ (fs.globIn d.par (d.stemS ++ "*")).map (fun p => nameStem p.nm)
        ↔ takenBy fs d.par (candName d.stemS k)) := by
    intro k
    apply mem_stems_iff fs d _ h1 h2 h3
    exact ⟨" (".toList ++ ((natStr k).toList ++ ")".toList), by
      simp only [candName, strToList_append, List.append_assoc]⟩
  obtain ⟨hA, hB⟩ := findFree_spec d.stemS
    ((fs.globIn d.par (d.stemS ++ "*")).map fun p => nameStem p.nm)
  constructor
  · intro hnt
    rw [hinc, hA (fun hm => hnt (hiffStem.1 hm))]
  · intro ht
    obtain ⟨n, hn1, heq, hfree, hleast⟩ := hB (hiffStem.2 ht)
    exact ⟨n, hn1, by rw [hinc, heq], fun htk => hfree ((hiffCand n).2 htk),
           fun m hm1 hmn => (hiffCand m).1 (hleast m hm1 hmn)⟩

/-- Directory holding `p[ab].heic`, whose stem contains brackets. -/
def fsBr : FS := ⟨[(⟨"d", "p[ab].heic"⟩, 1)], [(1, ⟨[1], 1⟩)], ["d"]⟩

/-- C6 counterexample: the stem `p[ab]` is taken by an existing file,
yet the resolver keeps `p[ab].jpg` un-incremented — the glob pattern
`p[ab]*` treats the brackets as a character class and misses the
existing file. -/
theorem increment_bracket_cex :
    takenBy fsBr "d" (Pth.stemS ⟨"d", "p[ab].jpg"⟩) ∧
    incrementStem fsBr ⟨"d", "p[ab].jpg"⟩ = ⟨"d", "p[ab].jpg"⟩ := by decide

/-- Directory holding `photo.heic`. -/
def fsW : FS := ⟨[(⟨"d", "photo.heic"⟩, 1)], [(1, ⟨[1], 1⟩)], ["d"]⟩

/-- C6 witness: exporting `photo.jpg` into a directory already holding
`photo.heic` resolves to `photo (1).jpg`. -/
theorem incrementStem_least_free_witness :
    incrementStem fsW ⟨"d", "photo.jpg"⟩ = ⟨"d", "photo (1).jpg"⟩ := by
  obtain ⟨n, hn1, heq, hfree, hleast⟩ :=
    (incrementStem_least_free fsW ⟨"d", "photo.jpg"⟩
      (by decide) (by decide) (by decide)).2 (by decide)
  have hn : n = 1 := by
    by_contra hne
    exact absurd (hleast 1 (by omega) (by omega)) (by decide)
  rw [hn] at heq
  rw [heq]
  decide

-- Error taxonomy: which exceptions each stage can raise.

theorem linkF_err (s : St) (p q : Pth) (e : EErr) (h : s.linkF p q = .error e) :
    ∃ m, e = .osErr m := by
  unfold St.linkF at h
  repeat' split at h
  all_goals first
    | (injection h with h3; exact ⟨_, h3.symm⟩)
    | cases h

theorem copyF_err (s : St) (p q : Pth) (e : EErr) (h : s.copyF p q = .error e) :
    ∃ m, e = .osErr m := by
  unfold St.copyF at h
  repeat' split at h
  all_goals first
    | (injection h with h3; exact ⟨_, h3.symm⟩)
    | cases h

theorem expPhotoFile_err (a : Asset) (src dest : Pth) (u ov hl ef db : Bool)
    (s : St) (e : EErr) (st : St)
    (h : expPhotoFile a src dest u ov hl ef db s = (.error e, st)) :
    ∃ m, e = .osErr m := by
  unfold expPhotoFile at h
  repeat' split at h
  all_goals (rw [Prod.mk.injEq] at h; obtain ⟨h1, h2⟩ := h)
  all_goals first
    | (injection h1 with h3
       subst h3
       first
         | exact linkF_err _ _ _ _ (by assumption)
         | exact copyF_err _ _ _ _ (by assumption))
    | cases h1

theorem livePart_err (a : Asset) (o : Opts) (d : Pth) (acc : ExpRes) (s : St)
    (e : EErr) (st : St) (h : livePart a o d acc s = (.error e, st)) :
    ∃ m, e = .osErr m := by
  unfold livePart at h
  repeat' split at h
  all_goals (rw [Prod.mk.injEq] at h; obtain ⟨h1, h2⟩ := h)
  all_goals first
    | (injection h1 with h3
       subst h3
       exact expPhotoFile_err _ _ _ _ _ _ _ _ _ _ _ (by assumption))
    | cases h1

theorem rawPart_err (a : Asset) (o : Opts) (d : Pth) (acc : ExpRes) (s : St)
    (e : EErr) (st : St) (h : rawPart a o d acc s = (.error e, st)) :
    e = .badPathNone ∨ ∃ m, e = .osErr m := by
  unfold rawPart at h
  repeat' split at h
  all_goals (rw [Prod.mk.injEq] at h; obtain ⟨h1, h2⟩ := h)
  all_goals first
    | (injection h1 with h3
       subst h3
       first
         | exact Or.inl rfl
         | exact Or.inr (expPhotoFile_err _ _ _ _ _ _ _ _ _ _ _ (by assumption)))
    | cases h1

theorem localPart_err (a : Asset) (o : Opts) (src d : Pth) (s : St)
    (e : EErr) (st : St) (h : localPart a o src d s = (.error e, st)) :
    e = .badPathNone ∨ ∃ m, e = .osErr m := by
  unfold localPart at h
  repeat' split at h
  all_goals first
    | exact rawPart_err _ _ _ _ _ _ _ h
    | (rw [Prod.mk.injEq] at h
       obtain ⟨h1, h2⟩ := h
       first
         | (injection h1 with h3
            subst h3
            first
              | exact Or.inr (expPhotoFile_err _ _ _ _ _ _ _ _ _ _ _ (by assumption))
              | exact Or.inr (livePart_err _ _ _ _ _ _ _ (by assumption)))
         | cases h1)

theorem writeExifTo_err (a : Asset) (o : Opts) (f : Pth) (acc : List Pth) (s : St)
    (e : EErr) (st : St) (h : writeExifTo a o f acc s = (.error e, st)) :
    ∃ m, e = .fnf m := by
  unfold writeExifTo at h
  repeat' split at h
  all_goals (rw [Prod.mk.injEq] at h; obtain ⟨h1, h2⟩ := h)
  all_goals first
    | (injection h1 with h3; exact ⟨_, h3.symm⟩)
    | cases h1

theorem exifStep_err (a : Asset) (o : Opts) (f : Pth) (acc : List Pth) (s : St)
    (e : EErr) (st : St) (h : exifStep a o f acc s = (.error e, st)) :
    e = .jsonErr ∨ ∃ m, e = .fnf m := by
  simp only [exifStep] at h
  split at h
  · split at h
    · rw [Prod.mk.injEq] at h
      injection h.1 with h3
      exact Or.inl h3.symm
    · split at h
      · rw [Prod.mk.injEq] at h
        injection h.1 with h3
        exact Or.inl h3.symm
      · split at h
        · rw [Prod.mk.injEq] at h
          cases h.1
        · exact Or.inr (writeExifTo_err _ _ _ _ _ _ _ h)
  · exact Or.inr (writeExifTo_err _ _ _ _ _ _ _ h)

theorem exifLoop_err (a : Asset) (o : Opts) (l : List Pth) :
    ∀ acc s e st, exifLoop a o l acc s = (.error e, st) →
      e = .jsonErr ∨ ∃ m, e = .fnf m := by
  induction l with
  | nil =>
      intro acc s e st h
      unfold exifLoop at h
      rw [Prod.mk.injEq] at h
      cases h.1
  | cons f t ih =>
      intro acc s e st h
      unfold exifLoop at h
      split at h
      · exact ih _ _ _ _ h
      · rename_i e2 s2 heq
        rw [Prod.mk.injEq] at h
        obtain ⟨h1, h2⟩ := h
        injection h1 with h3
        subst h3
        exact exifStep_err _ _ _ _ _ _ _ heq

theorem exifLoopNoUpd_err (a : Asset) (o : Opts) (l : List Pth) :
    ∀ acc s e st, exifLoopNoUpd a o l acc s = (.error e, st) →
      ∃ m, e = .fnf m := by
  induction l with
  | nil =>
      intro acc s e st h
      unfold exifLoopNoUpd at h
      rw [Prod.mk.injEq] at h
      cases h.1
  | cons f t ih =>
      intro acc s e st h
      unfold exifLoopNoUpd at h
      split at h
      · exact ih _ _ _ _ h
      · rename_i e2 s2 heq
        rw [Prod.mk.injEq] at h
        obtain ⟨h1, h2⟩ := h
        injection h1 with h3
        subst h3
        exact writeExifTo_err _ _ _ _ _ _ _ heq

theorem exifStage_err (a : Asset) (o : Opts) (r : ExpRes) (s : St)
    (e : EErr) (st : St) (h : exifStage a o r s = (.error e, st)) :
    e = .jsonErr ∨ ∃ m, e = .fnf m := by
  simp only [exifStage] at h
  repeat' split at h
  all_goals first
    | exact exifLoop_err _ _ _ _ _ _ _ h
    | exact Or.inr (exifLoopNoUpd_err _ _ _ _ _ _ _ h)
    | (rw [Prod.mk.injEq] at h; cases h.1)

theorem composeFname_err (a : Asset) (fns : List String) (o : Opts) (e : EErr)
    (h : composeFname a fns o = .error e) : ∃ m, e = .fnf m := by
  unfold composeFname at h
  repeat' split at h
  all_goals first
    | (injection h with h3; exact ⟨_, h3.symm⟩)
    | cases h

theorem localSrc_err (a : Asset) (ed : Bool) (e : EErr)
    (h : localSrc a ed = .error e) : ∃ m, e = .fnf m := by
  unfold localSrc at h
  repeat' split at h
  all_goals first
    | (injection h with h3; exact ⟨_, h3.symm⟩)
    | cases h

/-- The edited + `use_photos_export` scenario in which a supplied
filename tuple changes behavior. -/
def edAsset : Asset := { baseAsset with hasadjustments := true }

/-- Options for the C10 counterexample. -/
def oPE : Opts := { edited := true, usePhotosExport := true, sidecarJson := true }

/-- C10 counterexample: with exactly two positional filenames the call
is not always identical to the no-filename call — in the
`use_photos_export` edited path a nonempty filename tuple suppresses
the `_edited` stem suffix, so the sidecar lands at a different path. -/
theorem two_filenames_pe_divergence_cex :
    export2 edAsset (some dstDir) ["a.jpg", "b.jpg"] oPE stSrcOnly
      ≠ export2 edAsset (some dstDir) [] oPE stSrcOnly := by
  decide

/-- C10 (amended): the too-many-positional-arguments `TypeError` is
raised only when more than two filename arguments are passed (every
other raise site uses a different exception), and a two-name call
behaves exactly like a no-name call unless the edited
`use_photos_export` path is taken (where a nonempty filename tuple
suppresses the `_edited` stem suffix). -/
theorem tooManyArgs_characterization :
    (∀ (a : Asset) (dest : Option String) (fns : List String) (o : Opts) (s : St)
       (st : St), export2 a dest fns o s = (.error .tooManyArgs, st) →
         fns.length > 2)
    ∧ (∀ (a : Asset) (dest : Option String) (fns : List String) (o : Opts) (s : St),
        fns.length = 2 → ¬(o.edited = true ∧ o.usePhotosExport = true) →
          export2 a dest fns o s = export2 a dest [] o s) := by
  constructor
  · intro a dest fns o s st h
    simp only [export2] at h
    repeat' split at h
    all_goals (rw [Prod.mk.injEq] at h; obtain ⟨h1, h2⟩ := h)
    all_goals repeat' split at h1
    all_goals
      first
        | (injection h1 with h3; cases h3; assumption)
        | (injection h1 with h3
           subst h3
           first
             | (rcases composeFname_err _ _ _ _ (by assumption) with ⟨m, hm⟩; cases hm)
             | (rcases localSrc_err _ _ _ (by assumption) with ⟨m, hm⟩; cases hm)
             | (rcases localPart_err _ _ _ _ _ _ _ (by assumption) with hb | ⟨m, hm⟩
                · cases hb
                · cases hm)
             | (rcases exifStage_err _ _ _ _ _ _ (by assumption) with hb | ⟨m, hm⟩
                · cases hb
                · cases hm))
        | cases h1
    all_goals assumption
  · intro a dest fns o s hlen hno
    obtain ⟨x, y, rfl⟩ : ∃ x y, fns = [x, y] := by
      match fns, hlen with
      | [x, y], _ => exact ⟨x, y, rfl⟩
    unfold export2
    have hc : composeFname a [x, y] o = composeFname a [] o := rfl
    have hl1 : ¬([x, y].length > 2) := by simp
    have hl2 : ¬(([] : List String).length > 2) := by simp
    by_cases hpe2 : o.usePhotosExport = true
    · have hedf : o.edited = false := by
        cases he : o.edited
        · rfl
        · exact absurd ⟨he, hpe2⟩ hno
      simp only [hc, hl1, hl2, hedf, hpe2, Bool.false_eq_true, false_and,
        not_false_eq_true, not_true_eq_false, eq_self_iff_true, not_true,
        if_false, ite_false, if_true, ite_true]
    · have hpef : o.usePhotosExport = false := by
        cases he : o.usePhotosExport
        · rfl
        · exact absurd he hpe2
      simp only [hc, hl1, hl2, hpef, Bool.false_eq_true, false_and,
        not_false_eq_true, not_true_eq_false, eq_self_iff_true, not_true,
        if_false, ite_false, if_true, ite_true]

/-- C10 witness: a two-name local call equals the no-name call. -/
theorem tooManyArgs_characterization_witness :
    export2 baseAsset (some dstDir) ["x", "y"] {} stSrcOnly
      = export2 baseAsset (some dstDir) [] {} stSrcOnly :=
  tooManyArgs_characterization.2 baseAsset (some dstDir) ["x", "y"] {} stSrcOnly
    rfl (by decide)

end OsxPhotos

